import Mathlib

/-!
# Verification of the staxing assignment/helper layer

A shallow embedding of the pure and stateful logic of
`src/staxing/assignment.py` and `src/staxing/helper.py`, together with
theorems settling the behavioural claims about that code.

Modelling conventions:
* Python strings are modelled as `String` or `List Char` (the latter where
  character-level recursion is needed).
* The Selenium driver is modelled by explicit state records (form fields,
  date-picker month/year) or by action traces; a method mutating the page
  becomes a function from state to state (or to `Except String state` when
  the Python code can raise).
* `random.randint` draws are supplied by an explicit stream of naturals.
-/

namespace Staxing

/-! ## `Assignment.modify_time` (assignment.py lines 238-244)

`modify_time` applies `str.replace(s, ':', '')`, then `str.replace(s, ' ', '')`,
then `str.replace(s, 'm', '')`.  Each call replaces a single-character pattern
by the empty string. -/

/-- Model of Python `str.replace(s, c, '')` for a one-character pattern `c` and
empty replacement: every occurrence of `c` is removed, all other characters are
kept in order. -/
def replaceCharEmpty (c : Char) : List Char → List Char
  | [] => []
  | a :: rest =>
    if a = c then replaceCharEmpty c rest else a :: replaceCharEmpty c rest

/-- `Assignment.modify_time`: strip `':'`, then `' '`, then `'m'` from the
time string (assignment.py lines 238-244). -/
def modify_time (t : List Char) : List Char :=
  replaceCharEmpty 'm' (replaceCharEmpty ' ' (replaceCharEmpty ':' t))

/-! ## `Assignment.adjust_date_picker` (assignment.py lines 246-291)

The date picker displays a month/year pair; the next-month arrow advances it by
one month, the previous-month arrow retreats it by one month.  The code first
clicks the target field, returns early when today's month/year equals the
target's, and otherwise runs two `while` loops:

```
while year <= new_date.year and month < new_date.month: click next
while year >= new_date.year and month > new_date.month: click previous
```

The loops are modelled fuel-limited (each concrete run below exits by its
guard long before the fuel runs out); the returned `Nat` counts the clicks
issued. -/

/-- The month/year a `react-datepicker` widget currently displays. -/
structure MonthYear where
  month : Nat
  year : Nat
deriving DecidableEq, Repr

/-- One click on `react-datepicker__navigation--next`. -/
def nextMonthClick (s : MonthYear) : MonthYear :=
  if s.month = 12 then ⟨1, s.year + 1⟩ else ⟨s.month + 1, s.year⟩

/-- One click on `react-datepicker__navigation--previous`. -/
def prevMonthClick (s : MonthYear) : MonthYear :=
  if s.month = 1 then ⟨12, s.year - 1⟩ else ⟨s.month - 1, s.year⟩

/-- The first `while` loop of `adjust_date_picker`: advance while
`year <= new_date.year and month < new_date.month`.  Returns the final
displayed state and the number of next-month clicks. -/
def forwardLoop (target : MonthYear) : Nat → MonthYear → MonthYear × Nat
  | 0, s => (s, 0)
  | fuel + 1, s =>
    if s.year ≤ target.year ∧ s.month < target.month then
      let r := forwardLoop target fuel (nextMonthClick s)
      (r.1, r.2 + 1)
    else (s, 0)

/-- The second `while` loop of `adjust_date_picker`: retreat while
`year >= new_date.year and month > new_date.month`. -/
def backwardLoop (target : MonthYear) : Nat → MonthYear → MonthYear × Nat
  | 0, s => (s, 0)
  | fuel + 1, s =>
    if s.year ≥ target.year ∧ s.month > target.month then
      let r := backwardLoop target fuel (prevMonthClick s)
      (r.1, r.2 + 1)
    else (s, 0)

/-- `Assignment.adjust_date_picker` (assignment.py lines 246-291): `today` is
`datetime.date.today()`, `displayed` is the month/year the picker shows when
opened, `target` is the requested date's month/year.  Returns the month/year
the picker displays on return and the total number of arrow clicks issued. -/
def adjust_date_picker (today displayed target : MonthYear) (fuel : Nat) :
    MonthYear × Nat :=
  if today.year = target.year ∧ today.month = target.month then (displayed, 0)
  else
    let f := forwardLoop target fuel displayed
    let b := backwardLoop target fuel f.1
    (b.1, f.2 + b.2)

/-! ## The `remove` dispatch table and the `delete_*` wrappers
(assignment.py lines 152-201 and 938-971)

`delete_homework`, `delete_external` and `delete_event` invoke
`self.remove[Assignment.READING]` with keyword arguments.  The lambda stored
there has the positional parameter list below and no defaults, so a Python
call binds successfully iff every supplied keyword names a parameter and every
parameter receives a value; otherwise the call raises `TypeError`. -/

/-- Parameter names of the lambda stored at `remove[Assignment.READING]`
(assignment.py lines 152-164). -/
def removeReadingLambdaParams : List String :=
  ["driver", "name", "description", "periods", "reading_list", "state",
   "problems", "url", "feedback"]

/-- The keyword-argument names passed by `delete_homework`, `delete_external`
and `delete_event` to `self.remove[Assignment.READING]` (assignment.py lines
938-971; all three pass exactly this set). -/
def deleteDelegationKeywords : List String :=
  ["driver", "title", "description", "periods", "problems", "status"]

/-- Python keyword binding for a function whose parameters have no defaults
and that receives no positional arguments: the call succeeds iff every keyword
names a parameter and every parameter is bound.  Anything else raises
`TypeError`. -/
def kwargsBind (params kwargs : List String) : Bool :=
  kwargs.all (fun k => params.contains k) &&
    params.all (fun p => kwargs.contains p)

/-! ## `User.login` non-OpenStax check (helper.py lines 381-392)

After navigation, `login` searches the page source (lowercased) for
`"openstax"`; when absent it executes `raise self.LoginError(...)`.  Python
resolves `self.LoginError` through the instance and the classes `User`,
`Helper` and `object`; the attribute sets below are transcribed from
helper.py.  `LoginError` is a module-level class (helper.py line 566), not an
attribute of any of those, so the attribute lookup itself raises
`AttributeError` before any `LoginError` can be constructed. -/

/-- Attributes the `Helper` class body defines (helper.py lines 37-224). -/
def helperClassAttrs : List String :=
  ["CONDENSED_WIDTH", "DEFAULT_WAIT_TIME", "CAPABILITIES", "__init__",
   "__enter__", "__del__", "__exit__", "delete", "default_capabilities",
   "run_on", "start_opera", "change_wait_time", "date_string", "get",
   "get_window_size", "set_window_size", "set_window_position", "sleep",
   "find", "find_all"]

/-- Attributes the `User` class body defines (helper.py lines 247-563). -/
def userClassAttrs : List String :=
  ["CONDENSED_WIDTH", "DEFAULT_WAIT_TIME", "__init__", "accept_contract",
   "login", "logout", "current_url", "goto_course_list", "get_course_list",
   "open_user_menu", "tutor_logout", "accounts_logout", "execises_logout",
   "select_course", "view_reference_book"]

/-- Attributes `User.__init__` (with `Helper.__init__`) stores on the
instance (helper.py lines 57-80 and 297-314). -/
def userInstanceAttrs : List String :=
  ["username", "password", "url", "email", "email_username", "email_password",
   "assign", "pasta", "opera_driver", "driver", "wait", "wait_time", "page"]

/-- Python attribute resolution for `self.<name>` on a `User` instance:
instance dict, then `User`, then `Helper` (then `object`, which defines none
of the names used here).  `false` means the lookup raises `AttributeError`. -/
def resolveUserAttr (name : String) : Bool :=
  userInstanceAttrs.contains name || userClassAttrs.contains name ||
    helperClassAttrs.contains name

/-- `needle` occurs as a contiguous substring of the second list. -/
def hasSubstring (needle : List Char) : List Char → Bool
  | [] => needle.isEmpty
  | a :: rest => needle.isPrefixOf (a :: rest) || hasSubstring needle rest

/-- `re.search(r'openstax', src.lower())` is some match iff the lowercased
page source contains `"openstax"` as a substring (`str.lower` is modelled
per character). -/
def pageHasOpenstax (src : String) : Bool :=
  hasSubstring "openstax".data (src.data.map Char.toLower)

/-- Observable steps of the credential-entry portion of `User.login`. -/
inductive LoginStep where
  | raisedLoginError (msg : String)
  | raisedAttributeError (attr : String)
  | enterUsername
  | clickNext
  | enterPassword
  | clickLogin
deriving DecidableEq, Repr

/-- `User.login` from the `page_source` check onward (helper.py lines
381-392): when the source lacks `"openstax"` the code executes
`raise self.LoginError('Non-OpenStax URL: %s' % current_url)`, which first
resolves the attribute `LoginError` on `self`; only when the source contains
`"openstax"` are the username and password typed. -/
def login_after_navigation (pageSource currentUrl : String) : List LoginStep :=
  if pageHasOpenstax pageSource then
    [LoginStep.enterUsername, LoginStep.clickNext,
     LoginStep.enterPassword, LoginStep.clickLogin]
  else if resolveUserAttr "LoginError" then
    [LoginStep.raisedLoginError ("Non-OpenStax URL: " ++ currentUrl)]
  else
    [LoginStep.raisedAttributeError "LoginError"]

/-! ## Assignment-creation workflows and breakpoints
(assignment.py lines 485-556, 707-768, 770-817, 819-862)

Each `add_new_*` workflow is a fixed sequence of form-filling steps with
early-return checkpoints: `if break_point == Assignment.BEFORE_X: return`.
The model records the sequence of page-modifying steps the workflow performs;
waits, prints and scrolls are omitted as they modify nothing. -/

/-- Breakpoint tag constants (assignment.py lines 31-38). -/
def BEFORE_TITLE : String := "title"

/-- `Assignment.BEFORE_DESCRIPTION`. -/
def BEFORE_DESCRIPTION : String := "description"

/-- `Assignment.BEFORE_PERIOD`. -/
def BEFORE_PERIOD : String := "period"

/-- `Assignment.BEFORE_SECTION_SELECT`. -/
def BEFORE_SECTION_SELECT : String := "section"

/-- `Assignment.BEFORE_READING_SELECT`. -/
def BEFORE_READING_SELECT : String := "reading"

/-- `Assignment.BEFORE_EXERCISE_SELECT`. -/
def BEFORE_EXERCISE_SELECT : String := "exercise"

/-- `Assignment.BEFORE_URL`. -/
def BEFORE_URL : String := "url"

/-- `Assignment.BEFORE_STATUS_SELECT`. -/
def BEFORE_STATUS_SELECT : String := "status"

/-- Page-modifying steps of the four creation workflows. -/
inductive FormStep where
  /-- `open_assignment_menu` -/
  | menu
  /-- click of the `Add <kind>` link -/
  | openForm
  /-- `send_keys(title)` into the title field -/
  | title
  /-- `send_keys(description)` into the description textarea -/
  | description
  /-- `assign_periods` -/
  | periods
  /-- click of `reading-select` (opens the section chooser) -/
  | openSectionChooser
  /-- `select_sections(readings)` -/
  | sections
  /-- click of the `Add Readings` button -/
  | addReadings
  /-- `add_homework_problems` -/
  | problems
  /-- feedback `<select>` handling of `add_new_homework` -/
  | feedback
  /-- `send_keys(url)` into `external-url` -/
  | url
  /-- `select_status(status)` -/
  | status
deriving DecidableEq, Repr

/-- `Assignment.add_new_reading` (assignment.py lines 485-556) as the list of
page-modifying steps it performs for a given `break_point`. -/
def add_new_reading_steps (bp : Option String) : List FormStep :=
  let s := [FormStep.menu, FormStep.openForm]
  if bp = some BEFORE_TITLE then s else
  let s := s ++ [FormStep.title]
  if bp = some BEFORE_DESCRIPTION then s else
  let s := s ++ [FormStep.description]
  if bp = some BEFORE_PERIOD then s else
  let s := s ++ [FormStep.periods, FormStep.openSectionChooser]
  if bp = some BEFORE_SECTION_SELECT then s else
  let s := s ++ [FormStep.sections]
  if bp = some BEFORE_READING_SELECT then s else
  let s := s ++ [FormStep.addReadings]
  if bp = some BEFORE_STATUS_SELECT then s else
  s ++ [FormStep.status]

/-- `Assignment.add_new_homework` (assignment.py lines 707-768) as the list of
page-modifying steps it performs for a given `break_point`. -/
def add_new_homework_steps (bp : Option String) : List FormStep :=
  let s := [FormStep.menu, FormStep.openForm]
  if bp = some BEFORE_TITLE then s else
  let s := s ++ [FormStep.title]
  if bp = some BEFORE_DESCRIPTION then s else
  let s := s ++ [FormStep.description]
  if bp = some BEFORE_PERIOD then s else
  let s := s ++ [FormStep.periods]
  if bp = some BEFORE_EXERCISE_SELECT then s else
  let s := s ++ [FormStep.problems, FormStep.feedback]
  if bp = some BEFORE_STATUS_SELECT then s else
  s ++ [FormStep.status]

/-- `Assignment.add_new_external` (assignment.py lines 770-817) as the list of
page-modifying steps it performs for a given `break_point`. -/
def add_new_external_steps (bp : Option String) : List FormStep :=
  let s := [FormStep.menu, FormStep.openForm]
  if bp = some BEFORE_TITLE then s else
  let s := s ++ [FormStep.title]
  if bp = some BEFORE_DESCRIPTION then s else
  let s := s ++ [FormStep.description]
  if bp = some BEFORE_PERIOD then s else
  let s := s ++ [FormStep.periods]
  if bp = some BEFORE_URL then s else
  let s := s ++ [FormStep.url]
  if bp = some BEFORE_STATUS_SELECT then s else
  s ++ [FormStep.status]

/-- `Assignment.add_new_event` (assignment.py lines 819-862) as the list of
page-modifying steps it performs for a given `break_point`. -/
def add_new_event_steps (bp : Option String) : List FormStep :=
  let s := [FormStep.menu, FormStep.openForm]
  if bp = some BEFORE_TITLE then s else
  let s := s ++ [FormStep.title]
  if bp = some BEFORE_DESCRIPTION then s else
  let s := s ++ [FormStep.description]
  if bp = some BEFORE_PERIOD then s else
  let s := s ++ [FormStep.periods]
  if bp = some BEFORE_STATUS_SELECT then s else
  s ++ [FormStep.status]

/-- The breakpoint tags each workflow checks, paired with the number of steps
of the full run that may be performed before control returns at that tag. -/
def readingBreakpoints : List (String × Nat) :=
  [(BEFORE_TITLE, 2), (BEFORE_DESCRIPTION, 3), (BEFORE_PERIOD, 4),
   (BEFORE_SECTION_SELECT, 6), (BEFORE_READING_SELECT, 7),
   (BEFORE_STATUS_SELECT, 8)]

/-- Supported breakpoints of `add_new_homework`. -/
def homeworkBreakpoints : List (String × Nat) :=
  [(BEFORE_TITLE, 2), (BEFORE_DESCRIPTION, 3), (BEFORE_PERIOD, 4),
   (BEFORE_EXERCISE_SELECT, 5), (BEFORE_STATUS_SELECT, 7)]

/-- Supported breakpoints of `add_new_external`. -/
def externalBreakpoints : List (String × Nat) :=
  [(BEFORE_TITLE, 2), (BEFORE_DESCRIPTION, 3), (BEFORE_PERIOD, 4),
   (BEFORE_URL, 5), (BEFORE_STATUS_SELECT, 6)]

/-- Supported breakpoints of `add_new_event`. -/
def eventBreakpoints : List (String × Nat) :=
  [(BEFORE_TITLE, 2), (BEFORE_DESCRIPTION, 3), (BEFORE_PERIOD, 4),
   (BEFORE_STATUS_SELECT, 5)]

/-- A workflow run truncated at a breakpoint is exactly the first `n` steps of
the full run, and no step of the full run past the cut appears in it. -/
abbrev breakpointExact (steps : Option String → List FormStep)
    (bps : List (String × Nat)) : Prop :=
  ∀ p ∈ bps,
    steps (some p.1) = (steps none).take p.2 ∧
    ∀ a ∈ (steps none).drop p.2, a ∉ steps (some p.1)

/-! ## `Assignment.assign_periods` (assignment.py lines 324-398)

A `periods` dict maps a period name (or the sentinel `'all'`) to an
`(open, close)` pair; each side is a bare date string or a `(date, time)`
tuple.  The UI offers a collective date panel (`hide-periods-radio`) and one
toggle row per period (`show-periods-radio`).  `assign_date` / `assign_time`
are modelled as atomic writes of the requested date/time string into the
row's field (the date-picker navigation they use internally is modelled
separately by `adjust_date_picker`).

The Python code reads the rows into a dict keyed by visible label, which
collapses duplicate labels; the model takes the rows directly and the
theorems assume the labels are distinct, as they are in the driven UI. -/

/-- One side of a period's `(open, close)` value: a bare `'MM/DD/YYYY'`
string or a `(date, time)` tuple. -/
inductive DateSide where
  | plain (date : String)
  | withTime (date : String) (time : String)
deriving DecidableEq, Repr

/-- `opens_on` after the `isinstance(…, tuple)` unpacking. -/
def sideDate : DateSide → String
  | .plain d => d
  | .withTime d _ => d

/-- `opens_at` after the `isinstance(…, tuple)` unpacking (`none` for a bare
date). -/
def sideTime : DateSide → Option String
  | .plain _ => none
  | .withTime _ t => some t

/-- Python truthiness of the unpacked time (`if opens_at:`): set only when a
time was supplied and it is non-empty. -/
def timeGiven : Option String → Bool
  | none => false
  | some t => t ≠ ""

/-- One period/section toggle row of the assignment form. -/
structure PeriodRow where
  name : String
  checked : Bool
  openDate : Option String
  dueDate : Option String
  openTime : Option String
  dueTime : Option String
deriving DecidableEq, Repr

/-- The date/time portion of the assignment form. -/
structure PeriodsForm where
  /-- `true` after `hide-periods-radio` was clicked, `false` after
  `show-periods-radio`. -/
  collectivePanel : Bool
  allOpenDate : Option String
  allDueDate : Option String
  allOpenTime : Option String
  allDueTime : Option String
  rows : List PeriodRow
deriving DecidableEq, Repr

/-- A `periods` dict: association list with the keys distinct (Python dict). -/
abbrev PeriodsDict := List (String × DateSide × DateSide)

/-- The body of the per-period loop for one row: deactivate a row whose label
is not a key of `periods`; activate a matching row and write its close date,
open date and (when supplied and non-empty) close and open times. -/
def updateRow (periods : PeriodsDict) (row : PeriodRow) : PeriodRow :=
  match periods.find? (fun kv => kv.1 == row.name) with
  | none => { row with checked := false }
  | some (_, opens, closes) =>
    { row with
      checked := true
      dueDate := some (sideDate closes)
      openDate := some (sideDate opens)
      dueTime := if timeGiven (sideTime closes) then sideTime closes
                 else row.dueTime
      openTime := if timeGiven (sideTime opens) then sideTime opens
                  else row.openTime }

/-- `Assignment.assign_periods` (assignment.py lines 324-398).  With the
sentinel `'all'` present, the collective panel is activated and filled from
`periods['all']` and the function returns.  Otherwise every row is toggled
to match the dict, matching rows receive their dates/times, and
`ValueError('No periods matched')` is raised when no row label occurs among
the keys. -/
def assign_periods (form : PeriodsForm) (periods : PeriodsDict) :
    Except String PeriodsForm :=
  match periods.find? (fun kv => kv.1 == "all") with
  | some (_, opens, closes) =>
    .ok { form with
          collectivePanel := true
          allOpenDate := some (sideDate opens)
          allDueDate := some (sideDate closes)
          allOpenTime := if timeGiven (sideTime opens) then sideTime opens
                         else form.allOpenTime
          allDueTime := if timeGiven (sideTime closes) then sideTime closes
                        else form.allDueTime }
  | none =>
    let rows' := form.rows.map (updateRow periods)
    if form.rows.any (fun row => periods.any (fun kv => kv.1 == row.name)) then
      .ok { form with collectivePanel := false, rows := rows' }
    else
      .error "No periods matched"

/-! ## `Assignment.add_homework_problems` (assignment.py lines 558-705)

`find_all_questions` scrapes a catalog: a dict mapping a section label (e.g.
`'1.1'`) to the list of exercise IDs shown for it.  `add_homework_problems`
then resolves each entry of the `problems` dict against the catalog,
accumulating chosen IDs in `using`, and finally clicks each member of
`set(using)` once.

Faithfulness notes:
* the catalog dict is an association list whose keys are unique (it is built
  by keyed dict assignment);
* for a plain (non-`'ch'`) key with a `(low, high)` tuple value,
  `available = all_available[section]` aliases the dict's list and
  `available.remove(...)` depletes it in place; this is modelled by writing
  the depleted list back into the catalog (`catUpdate`);
* `random.randint(a, b)` draws are taken from an explicit stream `rs`; a
  draw is `a + r % (b + 1 - a)`, which ranges over exactly `[a, b]`, and
  `randint` raises `ValueError` when `a > b`;
* `set(using)` iterates in unspecified order; it is modelled by `List.dedup`
  and only membership and duplicate-freedom of the result are used;
* the runner additionally returns the per-key contribution trace (a ghost
  output used only to state per-key properties; `add_homework_problems`
  discards it). -/

/-- A scraped exercise catalog: section label to exercise IDs
(`find_all_questions` result). -/
abbrev Catalog := List (String × List String)

/-- Python dict lookup `all_available[section]` (first entry with the key). -/
def catLookup (cat : Catalog) (k : String) : Option (List String) :=
  (cat.find? (fun p => p.1 == k)).map Prod.snd

/-- Write-back of an in-place depletion of the list `all_available[k]`. -/
def catUpdate : Catalog → String → List String → Catalog
  | [], _, _ => []
  | p :: rest, k, v =>
    if p.1 == k then (p.1, v) :: rest else p :: catUpdate rest k v

/-- An exercise ID occurs somewhere in the catalog. -/
def inCatalog (cat : Catalog) (ex : String) : Bool :=
  cat.any (fun p => p.2.contains ex)

/-- Python's substring test `'ch' in section`. -/
def chIn (s : String) : Bool := hasSubstring "ch".data s.data

/-- Python `int()` restricted to non-empty all-digit strings, the shape of
the section labels this code parses; anything else makes `int` raise. -/
def digitsToNat? (cs : List Char) : Option Nat :=
  if cs ≠ [] ∧ cs.all Char.isDigit then
    some (cs.foldl (fun n c => n * 10 + (c.toNat - '0'.toNat)) 0)
  else none

/-- `int(section.split('.')[0])`, returning `none` where Python `int` would
raise (the catalog's section labels are digit strings like `'1.1'`). -/
def sectionChapter (s : String) : Option Nat :=
  digitsToNat? (s.data.takeWhile (fun c => c ≠ '.'))

/-- The inner loop of `get_chapter_list`: concatenate, in catalog order, the
exercise lists of every section belonging to chapter `ch`. -/
def chapterEntries (ch : Nat) : Catalog → Except String (List String)
  | [] => .ok []
  | p :: rest =>
    match sectionChapter p.1 with
    | none => .error "ValueError: invalid section label"
    | some sc =>
      match chapterEntries ch rest with
      | .error e => .error e
      | .ok acc => .ok (if sc = ch then p.2 ++ acc else acc)

/-- `Assignment.get_chapter_list` (assignment.py lines 593-601):
`chapter = int(chapter_id[2:])`, then collect every section of that
chapter. -/
def get_chapter_list (problems : Catalog) (chapter_id : String) :
    Except String (List String) :=
  match digitsToNat? (chapter_id.data.drop 2) with
  | none => .error "ValueError: invalid chapter id"
  | some ch => chapterEntries ch problems

/-- `available = self.get_chapter_list(all_available, section) if 'ch' in
section else all_available[section]` (a missing key raises `KeyError`). -/
def fetchAvailable (cat : Catalog) (k : String) : Except String (List String) :=
  if chIn k then get_chapter_list cat k
  else
    match catLookup cat k with
    | some l => .ok l
    | none => .error "KeyError"

/-- `random.randint a b` (both ends inclusive): the draw comes from the head
of the stream; `a > b` raises `ValueError`. -/
def randint (a b : Nat) (rs : List Nat) : Except String (Nat × List Nat) :=
  if a ≤ b then .ok (a + rs.headD 0 % (b + 1 - a), rs.tail)
  else .error "ValueError: empty range"

/-- The random-pick loop of the `(low, high)` branch:
`ex = randint(0, len(available)-1); using.append(available[ex]);
available.remove(available[ex])`, `n` times.  `list.remove` deletes the
first occurrence of the value (`List.erase`). -/
def pickLoop : Nat → List String → List String → List Nat →
    Except String (List String × List String × List Nat)
  | 0, avail, acc, rs => .ok (acc, avail, rs)
  | n + 1, avail, acc, rs =>
    if avail.isEmpty then .error "ValueError: empty range"
    else
      match randint 0 (avail.length - 1) rs with
      | .error e => .error e
      | .ok (i, rs') =>
        match avail.get? i with
        | none => .error "IndexError"
        | some x => pickLoop n (avail.erase x) (acc ++ [x]) rs'

/-- The value a `problems` dict associates with a chapter/section key
(assignment.py lines 718-727): `'all'`, a first-`n` count, a `(low, high)`
tuple, or an explicit ID list.  (The reserved key `'tutor'` is dispatched on
the key, not the value.) -/
inductive ProblemSpec where
  | all
  | firstN (n : Nat)
  | randRange (low high : Nat)
  | ids (l : List String)
deriving DecidableEq, Repr

/-- The body of the `for section in problems` loop for one key: the exercise
IDs appended to `using`, the catalog after any in-place depletion, and the
remaining random stream.  The `'tutor'` key only drives the
tutor-selections widget and contributes no IDs. -/
def keyContribution (cat : Catalog) (k : String) (spec : ProblemSpec)
    (rs : List Nat) : Except String (List String × Catalog × List Nat) :=
  if k = "tutor" then .ok ([], cat, rs)
  else
    match spec with
    | .all =>
      match fetchAvailable cat k with
      | .error e => .error e
      | .ok available => .ok (available, cat, rs)
    | .firstN n =>
      match fetchAvailable cat k with
      | .error e => .error e
      | .ok available =>
        if n ≤ available.length then .ok (available.take n, cat, rs)
        else .error "IndexError"
    | .randRange low high =>
      match randint low high rs with
      | .error e => .error e
      | .ok (total, rs1) =>
        match fetchAvailable cat k with
        | .error e => .error e
        | .ok available =>
          match pickLoop total available [] rs1 with
          | .error e => .error e
          | .ok (picked, availLeft, rs2) =>
            .ok (picked, if chIn k then cat else catUpdate cat k availLeft,
                 rs2)
    | .ids l =>
      .ok (l.flatMap (fun ex =>
             (cat.filter (fun p => p.2.contains ex)).map (fun _ => ex)),
           cat, rs)

/-- The `for section in problems` loop: thread the catalog, the `using`
accumulator and the random stream through every key, recording each key's
contribution in a trace (ghost output for the per-key theorems). -/
def runKeys (cat : Catalog) (acc : List String) (rs : List Nat) :
    List (String × ProblemSpec) →
    Except String (Catalog × List String × List Nat ×
      List (String × List String))
  | [] => .ok (cat, acc, rs, [])
  | (k, spec) :: rest =>
    match keyContribution cat k spec rs with
    | .error e => .error e
    | .ok (c, cat', rs') =>
      match runKeys cat' (acc ++ c) rs' rest with
      | .error e => .error e
      | .ok (cat2, acc2, rs2, tr) => .ok (cat2, acc2, rs2, (k, c) :: tr)

/-- `Assignment.add_homework_problems` (assignment.py lines 627-705): resolve
every key of `problems` against the scraped catalog `cat`, then click each
member of `set(using)` exactly once; the returned list is the set of clicked
exercise IDs. -/
def add_homework_problems (cat : Catalog)
    (problems : List (String × ProblemSpec)) (rs : List Nat) :
    Except String (List String) :=
  match runKeys cat [] rs problems with
  | .error e => .error e
  | .ok (_, acc, _, _) => .ok acc.dedup

/-- The exercise IDs the scraped catalog lists for the target of key `k`: the
key's own section, or every section of the chapter for a `'ch'`-prefixed
key. -/
def targetEntries (cat : Catalog) (k : String) : List String :=
  if chIn k then
    match digitsToNat? (k.data.drop 2) with
    | none => []
    | some ch =>
      (cat.filter (fun p => sectionChapter p.1 == some ch)).flatMap Prod.snd
  else (catLookup cat k).getD []

/-! ## `User.__init__` URL normalisation (helper.py lines 297-310)

```
parse = list(urlparse(site if urlparse(site).scheme else '//' + site))
parse[0] = b'https'
... decode bytes ...
self.url = ParseResult(*parse).geturl()
```

`urlparse`/`geturl` are CPython's `urllib.parse` functions; they are
modelled below at the character-list level, following CPython's `urlsplit` /
`urlunsplit`.  `urlparse` additionally splits `;parameters` off the path and
`urlunparse` glues them back unchanged, so the round trip through the
6-tuple equals the round trip through the 5-tuple modelled here; strings are
assumed free of the control characters CPython strips up front. -/

/-- CPython `scheme_chars`: ASCII letters, digits, `+`, `-`, `.`. -/
def isSchemeChar (c : Char) : Bool :=
  c.isAlpha || c.isDigit || c == '+' || c == '-' || c == '.'

/-- The candidate scheme (everything before the first `':'`) is accepted when
it is non-empty, starts with an ASCII letter and consists of scheme
characters. -/
def schemeOk : List Char → Bool
  | [] => false
  | c :: rest => c.isAlpha && (c :: rest).all isSchemeChar

/-- Split a list at the first occurrence of `c` (`str.split(c, 1)` /
`str.find`): `none` when `c` does not occur. -/
def splitOnFirst (c : Char) : List Char → Option (List Char × List Char)
  | [] => none
  | a :: rest =>
    if a = c then some ([], rest)
    else
      match splitOnFirst c rest with
      | some (l, r) => some (a :: l, r)
      | none => none

/-- The scheme-extraction step of CPython `urlsplit`: find the first `':'`;
when the part before it is a valid scheme, return it lowercased together
with the rest, otherwise no scheme. -/
def extractScheme (url : List Char) : List Char × List Char :=
  match splitOnFirst ':' url with
  | none => ([], url)
  | some (before, after) =>
    if schemeOk before then (before.map Char.toLower, after) else ([], url)

/-- A character that ends the netloc (`_splitnetloc` looks for the earliest
of `'/'`, `'?'`, `'#'`). -/
def notNetlocDelim (c : Char) : Bool := !(c == '/' || c == '?' || c == '#')

/-- After a leading `'//'`, the netloc extends to the first delimiter. -/
def netlocSplit (rest1 : List Char) : List Char × List Char :=
  match rest1 with
  | '/' :: '/' :: r => (r.takeWhile notNetlocDelim, r.dropWhile notNetlocDelim)
  | _ => ([], rest1)

/-- `url.split('#', 1)` when `'#'` occurs, else no fragment. -/
def fragSplit (l : List Char) : List Char × List Char :=
  match splitOnFirst '#' l with
  | some (a, b) => (a, b)
  | none => (l, [])

/-- `url.split('?', 1)` when `'?'` occurs, else no query. -/
def querySplit (l : List Char) : List Char × List Char :=
  match splitOnFirst '?' l with
  | some (a, b) => (a, b)
  | none => (l, [])

/-- The five components of CPython `urlsplit` (`;parameters` stay inside
`path`, as they do through `urlparse`+`urlunparse`). -/
structure UrlSplit where
  scheme : List Char
  netloc : List Char
  path : List Char
  query : List Char
  fragment : List Char
deriving DecidableEq, Repr

/-- CPython `urlsplit`: scheme, then `'//'`-marked netloc, then fragment,
then query. -/
def urlsplitM (url : List Char) : UrlSplit :=
  let sr := extractScheme url
  let nr := netlocSplit sr.2
  let rf := fragSplit nr.2
  let pq := querySplit rf.1
  ⟨sr.1, nr.1, pq.1, pq.2, rf.2⟩

/-- CPython `urlunsplit` (which `geturl` reduces to once `;parameters` is
glued back into the path). -/
def urlunsplitM (p : UrlSplit) : List Char :=
  let url := p.path
  let url :=
    if p.netloc ≠ [] ∨ url.take 2 = ['/', '/'] then
      '/' :: '/' :: (p.netloc ++
        (if url ≠ [] ∧ url.head? ≠ some '/' then '/' :: url else url))
    else url
  let url := if p.scheme ≠ [] then p.scheme ++ ':' :: url else url
  let url := if p.query ≠ [] then url ++ '?' :: p.query else url
  if p.fragment ≠ [] then url ++ '#' :: p.fragment else url

/-- The `'?' + query` tail `urlunsplit` appends for a non-empty query. -/
def optQuery (q : List Char) : List Char := if q = [] then [] else '?' :: q

/-- The `'#' + fragment` tail `urlunsplit` appends for a non-empty
fragment. -/
def optFrag (f : List Char) : List Char := if f = [] then [] else '#' :: f

/-- `User.__init__` (helper.py lines 297-310): parse `site` (prefixing
`'//'` when `urlparse` finds no scheme), force the scheme to `https`
(`b'https'` decoded), and store `geturl()` of the result. -/
def user_url (site : List Char) : List Char :=
  let p :=
    if (urlsplitM site).scheme ≠ [] then urlsplitM site
    else urlsplitM ('/' :: '/' :: site)
  urlunsplitM { p with scheme := "https".data }

end Staxing

namespace Staxing

/-! ### Theorems for the definitions above -/

/-- Removing one character and filtering commute with further removals. -/
theorem replaceCharEmpty_eq_filter (c : Char) (s : List Char) :
    replaceCharEmpty c s = s.filter (fun a => a ≠ c) := by
  induction s with
  | nil => rfl
  | cons a rest ih =>
    by_cases h : a = c <;> simp [replaceCharEmpty, h, ih, List.filter_cons]

/-- **C8.** `Assignment.modify_time` removes every `':'`, `' '` and `'m'`
character and keeps all other characters in their original order; in
particular `'8:00 pm'` becomes `'800p'`, and a string containing none of the
three characters is returned unchanged. -/
theorem modify_time_removes_colon_space_m :
    (∀ s : List Char,
      modify_time s = s.filter (fun a => ¬(a = ':' ∨ a = ' ' ∨ a = 'm'))) ∧
    modify_time "8:00 pm".data = "800p".data ∧
    modify_time "1159a".data = "1159a".data := by
  refine ⟨fun s => ?_, by decide, by decide⟩
  simp only [modify_time, replaceCharEmpty_eq_filter, List.filter_filter]
  apply List.filter_congr
  intro a _
  by_cases h1 : a = ':' <;> by_cases h2 : a = ' ' <;> by_cases h3 : a = 'm' <;>
    simp [h1, h2, h3]

/-- **C1.** Failing input for `adjust_date_picker`: today is June 2026, the
picker displays December 2016 and the target date lies in March 2017.  The
first loop guard `month < new_date.month` fails (12 < 3 is false) and the
second loop guard `year >= new_date.year` fails (2016 >= 2017 is false), so
the code issues zero clicks and returns with the picker still on December
2016 instead of rotating forward three months to March 2017. -/
theorem adjust_date_picker_misses_cross_year_target :
    adjust_date_picker ⟨6, 2026⟩ ⟨12, 2016⟩ ⟨3, 2017⟩ 100 = (⟨12, 2016⟩, 0) ∧
    (⟨12, 2016⟩ : MonthYear) ≠ ⟨3, 2017⟩ := by
  constructor
  · rfl
  · decide

/-- **C10.** The keyword set passed by `delete_homework`, `delete_external`
and `delete_event` does not bind against the parameters of the
`remove[READING]` lambda: `title` (and `status`) name no parameter, and
`name`, `reading_list`, `state`, `url`, `feedback` receive no value, so every
such call raises `TypeError` instead of running the shared deletion flow. -/
theorem delete_delegation_kwargs_do_not_bind :
    kwargsBind removeReadingLambdaParams deleteDelegationKeywords = false ∧
    "title" ∈ deleteDelegationKeywords ∧
    "title" ∉ removeReadingLambdaParams ∧
    "name" ∈ removeReadingLambdaParams ∧
    "name" ∉ deleteDelegationKeywords := by
  refine ⟨by decide, by decide, by decide, by decide, by decide⟩

/-- **C7.** Failing input for the non-OpenStax redirect check: a landed page
whose source lacks `"openstax"`.  The code does abort before typing the
username or password, but the statement `raise self.LoginError(...)` fails to
resolve `LoginError` on the `User` instance (the class is module-level only),
so an `AttributeError` is raised instead of a `LoginError` carrying the URL. -/
theorem login_non_openstax_raises_attribute_error :
    login_after_navigation "<html><body>Example Domain</body></html>"
        "http://example.com/login"
      = [LoginStep.raisedAttributeError "LoginError"] ∧
    resolveUserAttr "LoginError" = false ∧
    LoginStep.enterUsername ∉
      login_after_navigation "<html><body>Example Domain</body></html>"
        "http://example.com/login" ∧
    LoginStep.enterPassword ∉
      login_after_navigation "<html><body>Example Domain</body></html>"
        "http://example.com/login" := by
  refine ⟨by decide, by decide, by decide, by decide⟩

/-- In an association list with distinct keys, `find?` on a member's key
returns exactly that member. -/
theorem find?_fst_eq_of_nodup {α β : Type} [DecidableEq α]
    (l : List (α × β)) (kv : α × β) (hnd : (l.map Prod.fst).Nodup)
    (hmem : kv ∈ l) : l.find? (fun x => x.1 == kv.1) = some kv := by
  induction l with
  | nil => cases hmem
  | cons h t ih =>
    rw [List.map_cons, List.nodup_cons] at hnd
    rcases List.mem_cons.1 hmem with heq | hmem'
    · subst heq
      exact List.find?_cons_of_pos _ (by simp)
    · have hne : (h.1 == kv.1) = false := by
        refine beq_eq_false_iff_ne.2 fun e => hnd.1 ?_
        exact e ▸ List.mem_map_of_mem Prod.fst hmem'
      rw [List.find?_cons_of_neg _ (by simp [hne]), ih hnd.2 hmem']

/-- **C2.** `Assignment.assign_periods`, for every supported `periods`
mapping: (i) with the sentinel `'all'` the collective open/close dates — and,
when a side carries a (non-empty) time, also the times — are set and the call
succeeds; (ii) without the sentinel, when every key names a period row, the
call succeeds and every named row is activated with its open/close date and
supplied times set; (iii) when no key matches any row it raises
`ValueError('No periods matched')`; and (iv) it never completes silently with
zero matching periods. -/
theorem assign_periods_spec (form : PeriodsForm) (periods : PeriodsDict)
    (hrows : (form.rows.map PeriodRow.name).Nodup)
    (hkeys : (periods.map Prod.fst).Nodup) :
    (∀ kv ∈ periods, kv.1 = "all" →
      ∃ form', assign_periods form periods = .ok form' ∧
        form'.allOpenDate = some (sideDate kv.2.1) ∧
        form'.allDueDate = some (sideDate kv.2.2) ∧
        (∀ t, sideTime kv.2.1 = some t → t ≠ "" → form'.allOpenTime = some t) ∧
        (∀ t, sideTime kv.2.2 = some t → t ≠ "" → form'.allDueTime = some t) ∧
        form'.rows = form.rows) ∧
    ((∀ kv ∈ periods, kv.1 ≠ "all") → periods ≠ [] →
      (∀ kv ∈ periods, ∃ row ∈ form.rows, row.name = kv.1) →
      ∃ form', assign_periods form periods = .ok form' ∧
        ∀ kv ∈ periods, ∀ row ∈ form.rows, row.name = kv.1 →
          ∃ row' ∈ form'.rows, row'.name = kv.1 ∧ row'.checked = true ∧
            row'.openDate = some (sideDate kv.2.1) ∧
            row'.dueDate = some (sideDate kv.2.2) ∧
            (∀ t, sideTime kv.2.1 = some t → t ≠ "" → row'.openTime = some t) ∧
            (∀ t, sideTime kv.2.2 = some t → t ≠ "" →
              row'.dueTime = some t)) ∧
    ((∀ kv ∈ periods, kv.1 ≠ "all") →
      (∀ kv ∈ periods, ∀ row ∈ form.rows, row.name ≠ kv.1) →
      assign_periods form periods = .error "No periods matched") ∧
    ((∀ kv ∈ periods, kv.1 ≠ "all") → ∀ form',
      assign_periods form periods = .ok form' →
      ∃ row ∈ form.rows, ∃ kv ∈ periods, row.name = kv.1) := by
  refine ⟨?_, ?_, ?_, ?_⟩
  · -- (i) the sentinel branch
    rintro ⟨k, opens, closes⟩ hkv hall
    simp only at hall
    subst hall
    have hfind : periods.find? (fun x => x.1 == "all")
        = some ("all", opens, closes) :=
      find?_fst_eq_of_nodup periods ("all", opens, closes) hkeys hkv
    refine ⟨{ form with
        collectivePanel := true
        allOpenDate := some (sideDate opens)
        allDueDate := some (sideDate closes)
        allOpenTime := if timeGiven (sideTime opens) then sideTime opens
                       else form.allOpenTime
        allDueTime := if timeGiven (sideTime closes) then sideTime closes
                      else form.allDueTime },
      ?_, rfl, rfl, ?_, ?_, rfl⟩
    · simp only [assign_periods, hfind]
    · intro t ht hne
      simp [timeGiven, ht, hne]
    · intro t ht hne
      simp [timeGiven, ht, hne]
  · -- (ii) full-match per-period branch
    intro hnall hne hmatch
    have hfind : periods.find? (fun x => x.1 == "all") = none := by
      refine List.find?_eq_none.2 fun kv hkv => ?_
      simp [hnall kv hkv]
    have hany : form.rows.any
        (fun row => periods.any (fun kv => kv.1 == row.name)) = true := by
      obtain ⟨kv, hkv⟩ := List.exists_mem_of_ne_nil periods hne
      obtain ⟨row, hrow, hname⟩ := hmatch kv hkv
      refine List.any_eq_true.2 ⟨row, hrow, List.any_eq_true.2 ⟨kv, hkv, ?_⟩⟩
      simp [hname]
    refine ⟨{ form with
        collectivePanel := false
        rows := form.rows.map (updateRow periods) },
      by simp only [assign_periods, hfind, hany, if_true], ?_⟩
    rintro ⟨k, opens, closes⟩ hkv row hrow hname
    simp only at hname
    refine ⟨updateRow periods row, List.mem_map_of_mem _ hrow, ?_⟩
    have hfindk : periods.find? (fun x => x.1 == k)
        = some (k, opens, closes) := by
      simpa using find?_fst_eq_of_nodup periods (k, opens, closes) hkeys hkv
    have hfindrow : periods.find? (fun x => x.1 == row.name)
        = some (k, opens, closes) := by
      rw [hname]; exact hfindk
    refine ⟨?_, ?_, ?_, ?_, ?_, ?_⟩
    · simp [updateRow, hfindrow, hfindk, hname]
    · simp [updateRow, hfindrow, hfindk, hname]
    · simp [updateRow, hfindrow, hfindk, hname]
    · simp [updateRow, hfindrow, hfindk, hname]
    · intro t ht htne
      simp only at ht
      simp [updateRow, hfindrow, hfindk, hname, timeGiven, ht, htne]
    · intro t ht htne
      simp only at ht
      simp [updateRow, hfindrow, hfindk, hname, timeGiven, ht, htne]
  · -- (iii) zero matches raise ValueError
    intro hnall hnomatch
    have hfind : periods.find? (fun x => x.1 == "all") = none := by
      refine List.find?_eq_none.2 fun kv hkv => ?_
      simp [hnall kv hkv]
    have hany : form.rows.any
        (fun row => periods.any (fun kv => kv.1 == row.name)) = false := by
      refine List.any_eq_false.2 fun row hrow => ?_
      simp only [List.any_eq_true, not_exists]
      rintro kv ⟨hkv, hbeq⟩
      exact hnomatch kv hkv row hrow (beq_iff_eq.1 hbeq).symm
    simp only [assign_periods, hfind, hany]
    rfl
  · -- (iv) success implies at least one match
    intro hnall form' hok
    have hfind : periods.find? (fun x => x.1 == "all") = none := by
      refine List.find?_eq_none.2 fun kv hkv => ?_
      simp [hnall kv hkv]
    by_cases hany : form.rows.any
        (fun row => periods.any (fun kv => kv.1 == row.name)) = true
    · obtain ⟨row, hrow, hin⟩ := List.any_eq_true.1 hany
      obtain ⟨kv, hkv, hbeq⟩ := List.any_eq_true.1 hin
      exact ⟨row, hrow, kv, hkv, (beq_iff_eq.1 hbeq).symm⟩
    · exfalso
      rw [Bool.not_eq_true] at hany
      simp only [assign_periods, hfind, hany] at hok
      cases hok

/-- Witness for C2 at a concrete form and mapping: one row labelled `1st`,
and `periods = {'1st': ('09/01/2026', ('09/08/2026', '8:00 pm'))}`. -/
theorem assign_periods_spec_witness :
    ∃ form', assign_periods
        ⟨false, none, none, none, none,
         [⟨"1st", false, none, none, none, none⟩]⟩
        [("1st", DateSide.plain "09/01/2026",
          DateSide.withTime "09/08/2026" "8:00 pm")] = .ok form' ∧
      ∀ kv ∈ [("1st", DateSide.plain "09/01/2026",
               DateSide.withTime "09/08/2026" "8:00 pm")],
        ∀ row ∈ [(⟨"1st", false, none, none, none, none⟩ : PeriodRow)],
          row.name = kv.1 →
          ∃ row' ∈ form'.rows, row'.name = kv.1 ∧ row'.checked = true ∧
            row'.openDate = some (sideDate kv.2.1) ∧
            row'.dueDate = some (sideDate kv.2.2) ∧
            (∀ t, sideTime kv.2.1 = some t → t ≠ "" → row'.openTime = some t) ∧
            (∀ t, sideTime kv.2.2 = some t → t ≠ "" →
              row'.dueTime = some t) :=
  (assign_periods_spec
      ⟨false, none, none, none, none,
       [⟨"1st", false, none, none, none, none⟩]⟩
      [("1st", DateSide.plain "09/01/2026",
        DateSide.withTime "09/08/2026" "8:00 pm")]
      (by decide) (by decide)).2.1
    (by decide) (by decide)
    (by intro kv hkv
        refine ⟨⟨"1st", false, none, none, none, none⟩, by decide, ?_⟩
        rcases List.mem_singleton.1 hkv with rfl
        rfl)

/-- A successful `catLookup` exhibits a catalog entry. -/
theorem catLookup_mem {cat : Catalog} {k : String} {v : List String}
    (h : catLookup cat k = some v) : (k, v) ∈ cat := by
  induction cat with
  | nil => exact Option.noConfusion h
  | cons p rest ih =>
    by_cases hp : p.1 = k
    · rw [catLookup, List.find?_cons_of_pos _ (by simp [hp])] at h
      simp only [Option.map_some', Option.some.injEq] at h
      have : (k, v) = p := by
        rw [← hp, ← h]
      rw [this]
      exact List.mem_cons_self _ _
    · rw [catLookup, List.find?_cons_of_neg _ (by simp [hp])] at h
      exact List.mem_cons_of_mem _ (ih h)

/-- With distinct catalog keys, every entry is found by `catLookup`. -/
theorem catLookup_of_mem_nodup {cat : Catalog} {p : String × List String}
    (hnd : (cat.map Prod.fst).Nodup) (hmem : p ∈ cat) :
    catLookup cat p.1 = some p.2 := by
  have := find?_fst_eq_of_nodup cat p hnd hmem
  simp [catLookup, this]

/-- `catUpdate` leaves every other key's lookup unchanged. -/
theorem catLookup_update_ne {cat : Catalog} {k k' : String}
    {v : List String} (h : k' ≠ k) :
    catLookup (catUpdate cat k v) k' = catLookup cat k' := by
  induction cat with
  | nil => rfl
  | cons p rest ih =>
    by_cases hp : p.1 = k
    · rw [catUpdate, if_pos (by simp [hp])]
      rw [catLookup, catLookup,
        List.find?_cons_of_neg _ (by simp [hp]; exact fun e => h e.symm),
        List.find?_cons_of_neg _ (by simp [hp]; exact fun e => h e.symm)]
    · rw [catUpdate, if_neg (by simp [hp])]
      by_cases hp' : p.1 = k'
      · rw [catLookup, catLookup, List.find?_cons_of_pos _ (by simp [hp']),
          List.find?_cons_of_pos _ (by simp [hp'])]
      · rw [catLookup, catLookup, List.find?_cons_of_neg _ (by simp [hp']),
          List.find?_cons_of_neg _ (by simp [hp'])]
        exact ih

/-- `catUpdate` at a present key rewrites that key's lookup. -/
theorem catLookup_update_self {cat : Catalog} {k : String}
    {v w : List String} (h : catLookup cat k = some w) :
    catLookup (catUpdate cat k v) k = some v := by
  induction cat with
  | nil => simp [catLookup] at h
  | cons p rest ih =>
    by_cases hp : p.1 = k
    · rw [catUpdate, if_pos (by simp [hp])]
      rw [catLookup, List.find?_cons_of_pos _ (by simp [hp])]
      rfl
    · rw [catUpdate, if_neg (by simp [hp])]
      rw [catLookup, List.find?_cons_of_neg _ (by simp [hp])] at h ⊢
      exact ih h

/-- Entries of an updated catalog are old entries or the replacement. -/
theorem mem_catUpdate {cat : Catalog} {p : String × List String}
    {k : String} {v : List String} (h : p ∈ catUpdate cat k v) :
    p ∈ cat ∨ p = (k, v) := by
  induction cat with
  | nil => cases h
  | cons q rest ih =>
    by_cases hq : q.1 = k
    · rw [catUpdate, if_pos (by simp [hq])] at h
      rcases List.mem_cons.1 h with rfl | hmem
      · right; rw [hq]
      · exact Or.inl (List.mem_cons_of_mem _ hmem)
    · rw [catUpdate, if_neg (by simp [hq])] at h
      rcases List.mem_cons.1 h with rfl | hmem
      · exact Or.inl (List.mem_cons_self _ _)
      · rcases ih hmem with h' | h'
        · exact Or.inl (List.mem_cons_of_mem _ h')
        · exact Or.inr h'

/-- A successful `randint a b` draw lies in `[a, b]`. -/
theorem randint_ok_bounds {a b : Nat} {rs rs' : List Nat} {t : Nat}
    (h : randint a b rs = .ok (t, rs')) : a ≤ t ∧ t ≤ b := by
  rw [randint] at h
  split at h
  · rename_i hab
    simp only [Except.ok.injEq, Prod.mk.injEq] at h
    obtain ⟨rfl, -⟩ := h
    refine ⟨Nat.le_add_right _ _, ?_⟩
    have := Nat.mod_lt (rs.headD 0) (y := b + 1 - a) (by omega)
    omega
  · cases h

/-- Specification of the random-pick loop: on success it appends exactly `n`
picks, all drawn from `avail`; every element of `avail` survives in the
leftover list or was picked; the leftover list comes from `avail`; and when
`avail` has no duplicates neither do the picks nor the leftover. -/
theorem pickLoop_spec :
    ∀ (n : Nat) (avail acc rs : _) {acc' avail' : List String}
      {rs' : List Nat},
    pickLoop n avail acc rs = .ok (acc', avail', rs') →
    ∃ picks, acc' = acc ++ picks ∧ picks.length = n ∧
      (∀ q ∈ picks, q ∈ avail) ∧
      (∀ q ∈ avail, q ∈ avail' ∨ q ∈ picks) ∧
      (∀ q ∈ avail', q ∈ avail) ∧
      (avail.Nodup → picks.Nodup ∧ avail'.Nodup) := by
  intro n
  induction n with
  | zero =>
    intro avail acc rs acc' avail' rs' h
    rw [pickLoop] at h
    simp only [Except.ok.injEq, Prod.mk.injEq] at h
    obtain ⟨rfl, rfl, rfl⟩ := h
    exact ⟨[], by simp, rfl, by simp, fun q hq => Or.inl hq,
      fun q hq => hq, fun hnd => ⟨List.nodup_nil, hnd⟩⟩
  | succ m ih =>
    intro avail acc rs acc' avail' rs' h
    rw [pickLoop] at h
    split at h
    · cases h
    · rename_i hne
      split at h
      · cases h
      · rename_i i rs1 hrand
        split at h
        · cases h
        · rename_i x hget
          have hx : x ∈ avail := List.get?_mem hget
          obtain ⟨picks', hacc, hlen, hsub, hcover, hleft, hnodup⟩ :=
            ih (avail.erase x) (acc ++ [x]) rs1 h
          refine ⟨x :: picks', by simpa using hacc, by simpa using hlen,
            ?_, ?_, ?_, ?_⟩
          · rintro q hq
            rcases List.mem_cons.1 hq with rfl | hq'
            · exact hx
            · exact List.erase_subset _ _ (hsub q hq')
          · intro q hq
            by_cases hqx : q = x
            · exact Or.inr (hqx ▸ List.mem_cons_self _ _)
            · rcases hcover q ((List.mem_erase_of_ne (l := avail) hqx).2 hq)
                with h' | h'
              · exact Or.inl h'
              · exact Or.inr (List.mem_cons_of_mem _ h')
          · intro q hq
            exact List.erase_subset _ _ (hleft q hq)
          · intro hnd
            obtain ⟨hp', hl'⟩ := hnodup (hnd.erase x)
            refine ⟨List.nodup_cons.2 ⟨fun hxin => ?_, hp'⟩, hl'⟩
            exact (hnd.mem_erase_iff.1 (hsub x hxin)).1 rfl

/-- Specification of `chapterEntries`: on success the result collects all and
only the exercise IDs of the chapter's sections. -/
theorem chapterEntries_spec :
    ∀ (cat : Catalog) {ch : Nat} {av : List String},
    chapterEntries ch cat = .ok av →
    (∀ p ∈ cat, sectionChapter p.1 = some ch → ∀ q ∈ p.2, q ∈ av) ∧
    (∀ q ∈ av, ∃ p ∈ cat, q ∈ p.2) := by
  intro cat
  induction cat with
  | nil =>
    intro ch av h
    rw [chapterEntries] at h
    simp only [Except.ok.injEq] at h
    subst h
    exact ⟨by simp, by simp⟩
  | cons p rest ih =>
    intro ch av h
    rw [chapterEntries] at h
    split at h
    · cases h
    · rename_i sc hsc
      split at h
      · cases h
      · rename_i acc hacc
        simp only [Except.ok.injEq] at h
        subst h
        obtain ⟨hall, hsrc⟩ := ih hacc
        constructor
        · rintro p' hp' hchap q hq
          rcases List.mem_cons.1 hp' with rfl | hmem
          · rw [hsc] at hchap
            simp only [Option.some.injEq] at hchap
            simp [hchap, hq]
          · have := hall p' hmem hchap q hq
            split <;> simp [this]
        · intro q hq
          split at hq
          · rcases List.mem_append.1 hq with h' | h'
            · exact ⟨p, List.mem_cons_self _ _, h'⟩
            · obtain ⟨p', hp', hq'⟩ := hsrc q h'
              exact ⟨p', List.mem_cons_of_mem _ hp', hq'⟩
          · obtain ⟨p', hp', hq'⟩ := hsrc q hq
            exact ⟨p', List.mem_cons_of_mem _ hp', hq'⟩

/-- Membership reading of `inCatalog`. -/
theorem inCatalog_iff {cat : Catalog} {q : String} :
    inCatalog cat q = true ↔ ∃ p ∈ cat, q ∈ p.2 := by
  simp [inCatalog, List.any_eq_true, List.contains, List.elem_iff]

/-- Everything `fetchAvailable` returns occurs in the catalog. -/
theorem fetchAvailable_sub {cat : Catalog} {k : String} {av : List String}
    (h : fetchAvailable cat k = .ok av) : ∀ q ∈ av, inCatalog cat q = true := by
  intro q hq
  rw [fetchAvailable] at h
  split at h
  · rw [get_chapter_list] at h
    split at h
    · cases h
    · obtain ⟨p, hp, hqp⟩ := (chapterEntries_spec cat h).2 q hq
      exact inCatalog_iff.2 ⟨p, hp, hqp⟩
  · split at h
    · rename_i l hl
      simp only [Except.ok.injEq] at h
      subst h
      exact inCatalog_iff.2 ⟨(k, l), catLookup_mem hl, hq⟩
    · cases h

/-- Specification of one iteration of the `for section in problems` loop:
the catalog only loses entries it contributed to `using`, every contributed
ID occurs in the catalog, the catalog only shrinks, and lookups at other
keys are untouched. -/
theorem keyContribution_spec {cat : Catalog} {k : String} {spec : ProblemSpec}
    {rs : List Nat} {c : List String} {cat' : Catalog} {rs' : List Nat}
    (h : keyContribution cat k spec rs = .ok (c, cat', rs')) :
    (∀ s q, q ∈ (catLookup cat s).getD [] →
      q ∈ (catLookup cat' s).getD [] ∨ q ∈ c) ∧
    (∀ q ∈ c, inCatalog cat q = true) ∧
    (∀ q, inCatalog cat' q = true → inCatalog cat q = true) ∧
    (∀ s, s ≠ k → catLookup cat' s = catLookup cat s) := by
  rw [keyContribution.eq_def] at h
  split at h
  · -- the reserved 'tutor' key
    simp only [Except.ok.injEq, Prod.mk.injEq] at h
    obtain ⟨rfl, rfl, rfl⟩ := h
    exact ⟨fun s q hq => Or.inl hq, by simp, fun q hq => hq, fun s _ => rfl⟩
  · split at h
    · -- value 'all'
      split at h
      · cases h
      · rename_i available hav
        simp only [Except.ok.injEq, Prod.mk.injEq] at h
        obtain ⟨rfl, rfl, rfl⟩ := h
        exact ⟨fun s q hq => Or.inl hq, fetchAvailable_sub hav,
          fun q hq => hq, fun s _ => rfl⟩
    · -- value `firstN n`
      split at h
      · cases h
      · rename_i available hav
        split at h
        · simp only [Except.ok.injEq, Prod.mk.injEq] at h
          obtain ⟨rfl, rfl, rfl⟩ := h
          exact ⟨fun s q hq => Or.inl hq,
            fun q hq => fetchAvailable_sub hav q (List.take_subset _ _ hq),
            fun q hq => hq, fun s _ => rfl⟩
        · cases h
    · -- value `randRange low high`
      split at h
      · cases h
      · rename_i total rs1 hrand
        split at h
        · cases h
        · rename_i available hav
          split at h
          · cases h
          · rename_i picked availLeft rs2 hpick
            simp only [Except.ok.injEq, Prod.mk.injEq] at h
            obtain ⟨rfl, rfl, rfl⟩ := h
            obtain ⟨picks, hacc, hlen, hsub, hcover, hleft, -⟩ :=
              pickLoop_spec total available [] rs1 hpick
            simp only [List.nil_append] at hacc
            subst hacc
            by_cases hch : chIn k = true
            · rw [if_pos hch]
              exact ⟨fun s q hq => Or.inl hq,
                fun q hq => fetchAvailable_sub hav q (hsub q hq),
                fun q hq => hq, fun s _ => rfl⟩
            · rw [if_neg hch]
              have hfetch := hav
              rw [fetchAvailable, if_neg hch] at hfetch
              have hlook : catLookup cat k = some available := by
                revert hfetch
                split
                · rename_i l hl
                  intro hfetch
                  simp only [Except.ok.injEq] at hfetch
                  rw [hl, hfetch]
                · intro hfetch; cases hfetch
              refine ⟨?_, ?_, ?_, ?_⟩
              · intro s q hq
                by_cases hs : s = k
                · subst hs
                  rw [hlook] at hq
                  simp only [Option.getD_some] at hq
                  rcases hcover q hq with h' | h'
                  · rw [catLookup_update_self hlook]
                    exact Or.inl (by simpa using h')
                  · exact Or.inr h'
                · rw [catLookup_update_ne hs]
                  exact Or.inl hq
              · intro q hq
                exact inCatalog_iff.2
                  ⟨(k, available), catLookup_mem hlook, hsub q hq⟩
              · intro q hq
                obtain ⟨p, hp, hqp⟩ := inCatalog_iff.1 hq
                rcases mem_catUpdate hp with h' | h'
                · exact inCatalog_iff.2 ⟨p, h', hqp⟩
                · subst h'
                  exact inCatalog_iff.2
                    ⟨(k, available), catLookup_mem hlook, hleft q hqp⟩
              · intro s hs
                exact catLookup_update_ne hs
    · -- value `ids l`
      simp only [Except.ok.injEq, Prod.mk.injEq] at h
      obtain ⟨rfl, rfl, rfl⟩ := h
      refine ⟨fun s q hq => Or.inl hq, ?_, fun q hq => hq, fun s _ => rfl⟩
      intro q hq
      obtain ⟨ex, hex, hq'⟩ := List.mem_flatMap.1 hq
      obtain ⟨p, hp, rfl⟩ := List.mem_map.1 hq'
      have hp' := List.mem_filter.1 hp
      exact inCatalog_iff.2 ⟨p, hp'.1,
        List.elem_iff.1 (by simpa [List.contains] using hp'.2)⟩

/-- Specification of the whole key loop: `using` only grows; every ID of the
starting catalog survives in the final catalog or was accumulated; everything
accumulated comes from the accumulator or the catalog; keys not processed
keep their lookup. -/
theorem runKeys_spec :
    ∀ (l : List (String × ProblemSpec)) (cat : Catalog) (acc : List String)
      (rs : List Nat) {cat2 : Catalog} {acc2 : List String} {rs2 : List Nat}
      {tr : List (String × List String)},
    runKeys cat acc rs l = .ok (cat2, acc2, rs2, tr) →
    (∃ ext, acc2 = acc ++ ext) ∧
    (∀ s q, q ∈ (catLookup cat s).getD [] →
      q ∈ (catLookup cat2 s).getD [] ∨ q ∈ acc2) ∧
    (∀ q ∈ acc2, q ∈ acc ∨ inCatalog cat q = true) ∧
    (∀ s, (∀ kv ∈ l, kv.1 ≠ s) → catLookup cat2 s = catLookup cat s) := by
  intro l
  induction l with
  | nil =>
    intro cat acc rs cat2 acc2 rs2 tr h
    rw [runKeys] at h
    simp only [Except.ok.injEq, Prod.mk.injEq] at h
    obtain ⟨rfl, rfl, rfl, rfl⟩ := h
    exact ⟨⟨[], by simp⟩, fun s q hq => Or.inl hq, fun q hq => Or.inl hq,
      fun s _ => rfl⟩
  | cons kv rest ih =>
    obtain ⟨k, spec⟩ := kv
    intro cat acc rs cat2 acc2 rs2 tr h
    rw [runKeys] at h
    split at h
    · cases h
    · rename_i c cat' rs' hstep
      split at h
      · cases h
      · rename_i cat2' acc2' rs2' tr' hrest
        simp only [Except.ok.injEq, Prod.mk.injEq] at h
        obtain ⟨rfl, rfl, rfl, rfl⟩ := h
        obtain ⟨hpres, hfrom, hmono, hother⟩ := keyContribution_spec hstep
        obtain ⟨⟨ext, hext⟩, ihpres, ihfrom, ihother⟩ :=
          ih cat' (acc ++ c) rs' hrest
        refine ⟨⟨c ++ ext, by simp [hext]⟩, ?_, ?_, ?_⟩
        · intro s q hq
          rcases hpres s q hq with h' | h'
          · exact ihpres s q h'
          · refine Or.inr ?_
            rw [hext]
            exact List.mem_append_left _ (List.mem_append_right _ h')
        · intro q hq
          rcases ihfrom q hq with h' | h'
          · rcases List.mem_append.1 h' with h'' | h''
            · exact Or.inl h''
            · exact Or.inr (hfrom q h'')
          · exact Or.inr (hmono q h')
        · intro s hs
          have hk : k ≠ s := hs (k, spec) (List.mem_cons_self _ _)
          rw [ihother s fun kv' hkv' => hs kv' (List.mem_cons_of_mem _ hkv'),
            hother s fun e => hk e.symm]

/-- Splitting a key-loop run over a list append. -/
theorem runKeys_append :
    ∀ (l1 l2 : List (String × ProblemSpec)) (cat : Catalog)
      (acc : List String) (rs : List Nat) {cat2 : Catalog}
      {acc2 : List String} {rs2 : List Nat}
      {tr : List (String × List String)},
    runKeys cat acc rs (l1 ++ l2) = .ok (cat2, acc2, rs2, tr) →
    ∃ cat1 acc1 rs1 tr1 tr2,
      runKeys cat acc rs l1 = .ok (cat1, acc1, rs1, tr1) ∧
      runKeys cat1 acc1 rs1 l2 = .ok (cat2, acc2, rs2, tr2) ∧
      tr = tr1 ++ tr2 := by
  intro l1
  induction l1 with
  | nil =>
    intro l2 cat acc rs cat2 acc2 rs2 tr h
    exact ⟨cat, acc, rs, [], tr, rfl, h, by simp⟩
  | cons kv rest ih =>
    obtain ⟨k, spec⟩ := kv
    intro l2 cat acc rs cat2 acc2 rs2 tr h
    rw [List.cons_append, runKeys] at h
    split at h
    · cases h
    · rename_i c cat' rs' hstep
      split at h
      · cases h
      · rename_i cat2' acc2' rs2' tr' hrest
        simp only [Except.ok.injEq, Prod.mk.injEq] at h
        obtain ⟨rfl, rfl, rfl, rfl⟩ := h
        obtain ⟨cat1, acc1, rs1, tr1, tr2, h1, h2, rfl⟩ :=
          ih l2 cat' (acc ++ c) rs' hrest
        refine ⟨cat1, acc1, rs1, (k, c) :: tr1, tr2, ?_, h2, by simp⟩
        rw [runKeys, hstep]
        dsimp only
        rw [h1]

/-- Extraction of the processing step of one key of the `problems` dict out
of a successful full run: the step ran against a catalog whose entry for that
key is untouched (keys are processed once, in dict order), its contribution
is recorded in the trace and ends up in the final accumulator, and IDs
present at the start survive to the step's catalog unless already
accumulated. -/
theorem runKeys_key_extract {problems : List (String × ProblemSpec)}
    {cat : Catalog} {rs : List Nat} {cat2 : Catalog} {acc2 : List String}
    {rs2 : List Nat} {tr : List (String × List String)} {k : String}
    {spec : ProblemSpec}
    (hrun : runKeys cat [] rs problems = .ok (cat2, acc2, rs2, tr))
    (hmem : (k, spec) ∈ problems)
    (hkeys : (problems.map Prod.fst).Nodup) :
    ∃ (cat1 : Catalog) (acc1 : List String) (rs1 : List Nat)
      (c : List String) (cat1' : Catalog) (rs1' : List Nat),
      keyContribution cat1 k spec rs1 = .ok (c, cat1', rs1') ∧
      (k, c) ∈ tr ∧
      (∀ q ∈ c, q ∈ acc2) ∧
      (∀ q ∈ acc1, q ∈ acc2) ∧
      catLookup cat1 k = catLookup cat k ∧
      (∀ s q, q ∈ (catLookup cat s).getD [] →
        q ∈ (catLookup cat1 s).getD [] ∨ q ∈ acc1) := by
  obtain ⟨l1, l2, rfl⟩ := List.append_of_mem hmem
  obtain ⟨cat1, acc1, rs1, tr1, tr2, h1, h2, rfl⟩ :=
    runKeys_append l1 ((k, spec) :: l2) cat [] rs hrun
  rw [runKeys] at h2
  split at h2
  · cases h2
  · rename_i c cat1' rs1' hstep
    split at h2
    · cases h2
    · rename_i cat2' acc2' rs2' tr' hrest
      simp only [Except.ok.injEq, Prod.mk.injEq] at h2
      obtain ⟨rfl, rfl, rfl, rfl⟩ := h2
      have hnotin : ∀ kv ∈ l1, kv.1 ≠ k := by
        intro kv hkv he
        rw [List.map_append, List.map_cons] at hkeys
        have hdisj := (List.nodup_append.1 hkeys).2.2
        exact hdisj (List.mem_map_of_mem Prod.fst hkv)
          (he ▸ List.mem_cons_self _ _)
      obtain ⟨-, hpres1, -, hother1⟩ := runKeys_spec l1 cat [] rs h1
      obtain ⟨⟨ext, hext⟩, -, -, -⟩ :=
        runKeys_spec l2 cat1' (acc1 ++ c) rs1' hrest
      refine ⟨cat1, acc1, rs1, c, cat1', rs1', hstep, ?_, ?_, ?_, ?_, hpres1⟩
      · exact List.mem_append_right _ (List.mem_cons_self _ _)
      · intro q hq
        rw [hext]
        exact List.mem_append_left _ (List.mem_append_right _ hq)
      · intro q hq
        rw [hext]
        exact List.mem_append_left _ (List.mem_append_left _ hq)
      · exact hother1 k hnotin

/-- **C3.** When a key of the `problems` dict carries the literal `'all'`,
`add_homework_problems` selects every exercise ID the scraped catalog lists
for that key's section — or, for a `'ch'`-prefixed chapter key, for every
section of the chapter — exactly once: every such catalog entry is in the
clicked set, and the clicked set holds no duplicates. -/
theorem add_homework_problems_all_selects_every_entry
    {cat : Catalog} {problems : List (String × ProblemSpec)} {rs : List Nat}
    {cat2 : Catalog} {acc2 : List String} {rs2 : List Nat}
    {tr : List (String × List String)} {k : String}
    (hrun : runKeys cat [] rs problems = .ok (cat2, acc2, rs2, tr))
    (hmem : (k, ProblemSpec.all) ∈ problems)
    (hkeys : (problems.map Prod.fst).Nodup)
    (hcat : (cat.map Prod.fst).Nodup)
    (hkt : k ≠ "tutor") :
    add_homework_problems cat problems rs = .ok acc2.dedup ∧
    (∀ q ∈ targetEntries cat k, q ∈ acc2.dedup) ∧
    acc2.dedup.Nodup := by
  obtain ⟨cat1, acc1, rs1, c, cat1', rs1', hstep, htr, hcsub, haccsub,
    hlookk, hpres⟩ := runKeys_key_extract hrun hmem hkeys
  rw [keyContribution.eq_def, if_neg hkt] at hstep
  dsimp only at hstep
  split at hstep
  · cases hstep
  · rename_i available hav
    simp only [Except.ok.injEq, Prod.mk.injEq] at hstep
    obtain ⟨rfl, rfl, rfl⟩ := hstep
    refine ⟨by simp only [add_homework_problems, hrun], ?_,
      List.nodup_dedup _⟩
    intro q hq
    by_cases hch : chIn k = true
    · -- chapter key: every section of the chapter
      rw [targetEntries, if_pos hch] at hq
      rw [fetchAvailable, if_pos hch, get_chapter_list] at hav
      split at hq
      · cases hq
      · rename_i ch hparse
        rw [hparse] at hav
        obtain ⟨p, hp, hqp⟩ := List.mem_flatMap.1 hq
        have hp' := List.mem_filter.1 hp
        have hchap : sectionChapter p.1 = some ch := by
          simpa using hp'.2
        have hlookp : catLookup cat p.1 = some p.2 :=
          catLookup_of_mem_nodup hcat hp'.1
        have hq0 : q ∈ (catLookup cat p.1).getD [] := by
          rw [hlookp]; simpa using hqp
        rcases hpres p.1 q hq0 with h' | h'
        · rcases hv' : catLookup cat1 p.1 with _ | v'
          · rw [hv'] at h'; cases h'
          · rw [hv'] at h'
            simp only [Option.getD_some] at h'
            have hmem1 : (p.1, v') ∈ cat1 := catLookup_mem hv'
            have := (chapterEntries_spec cat1 hav).1 (p.1, v') hmem1 hchap q h'
            exact List.mem_dedup.2 (hcsub q this)
        · exact List.mem_dedup.2 (haccsub q h')
    · -- plain section key
      rw [targetEntries, if_neg hch] at hq
      rw [fetchAvailable, if_neg hch] at hav
      rw [hlookk] at hav
      rcases hv : catLookup cat k with _ | v
      · rw [hv] at hq; cases hq
      · rw [hv] at hav hq
        simp only [Option.getD_some] at hq
        simp only [Except.ok.injEq] at hav
        subst hav
        exact List.mem_dedup.2 (hcsub q hq)

/-- **C4.** When a (plain, non-chapter) section key of the `problems` dict
carries a `(low, high)` pair with `low ≤ high ≤` the number of exercises the
scraped catalog lists for that section, `add_homework_problems` draws for
that key a number `n` of exercises with `low ≤ n ≤ high`, all from that
section's catalog entries and pairwise distinct, and the clicked set holds
no duplicates. -/
theorem add_homework_problems_range_spec
    {cat : Catalog} {problems : List (String × ProblemSpec)} {rs : List Nat}
    {cat2 : Catalog} {acc2 : List String} {rs2 : List Nat}
    {tr : List (String × List String)} {k : String} {low high : Nat}
    {avail : List String}
    (hrun : runKeys cat [] rs problems = .ok (cat2, acc2, rs2, tr))
    (hmem : (k, ProblemSpec.randRange low high) ∈ problems)
    (hkeys : (problems.map Prod.fst).Nodup)
    (hch : chIn k = false) (hkt : k ≠ "tutor")
    (hlook : catLookup cat k = some avail)
    (hnd : avail.Nodup) (hlh : low ≤ high) (hhl : high ≤ avail.length) :
    add_homework_problems cat problems rs = .ok acc2.dedup ∧
    ∃ c, (k, c) ∈ tr ∧ low ≤ c.length ∧ c.length ≤ high ∧ c.Nodup ∧
      (∀ q ∈ c, q ∈ avail) ∧ (∀ q ∈ c, q ∈ acc2.dedup) ∧
      acc2.dedup.Nodup := by
  obtain ⟨cat1, acc1, rs1, c, cat1', rs1', hstep, htr, hcsub, haccsub,
    hlookk, hpres⟩ := runKeys_key_extract hrun hmem hkeys
  rw [keyContribution.eq_def, if_neg hkt] at hstep
  dsimp only at hstep
  split at hstep
  · cases hstep
  · rename_i total rsA hrand
    split at hstep
    · cases hstep
    · rename_i available hav
      split at hstep
      · cases hstep
      · rename_i picked availLeft rsB hpick
        simp only [Except.ok.injEq, Prod.mk.injEq] at hstep
        obtain ⟨rfl, rfl, rfl⟩ := hstep
        rw [fetchAvailable, if_neg (by simp [hch]), hlookk, hlook] at hav
        simp only [Except.ok.injEq] at hav
        subst hav
        obtain ⟨hlow, hhigh⟩ := randint_ok_bounds hrand
        obtain ⟨picks, hacc, hlen, hsub, -, -, hnodups⟩ :=
          pickLoop_spec total avail [] rsA hpick
        simp only [List.nil_append] at hacc
        subst hacc
        refine ⟨by simp only [add_homework_problems, hrun],
          picked, htr, ?_, ?_, (hnodups hnd).1, hsub,
          fun q hq => List.mem_dedup.2 (hcsub q hq), List.nodup_dedup _⟩
        · omega
        · omega

/-- **C5.** When a key of the `problems` dict carries an explicit list of
exercise IDs, `add_homework_problems` selects exactly the listed IDs present
in the scraped catalog: the key contributes only listed IDs, every listed ID
occurring in some catalog section ends up in the clicked set, and an ID
absent from the whole catalog is never clicked. -/
theorem add_homework_problems_ids_spec
    {cat : Catalog} {problems : List (String × ProblemSpec)} {rs : List Nat}
    {cat2 : Catalog} {acc2 : List String} {rs2 : List Nat}
    {tr : List (String × List String)} {k : String} {L : List String}
    (hrun : runKeys cat [] rs problems = .ok (cat2, acc2, rs2, tr))
    (hmem : (k, ProblemSpec.ids L) ∈ problems)
    (hkeys : (problems.map Prod.fst).Nodup)
    (hcat : (cat.map Prod.fst).Nodup)
    (hkt : k ≠ "tutor") :
    add_homework_problems cat problems rs = .ok acc2.dedup ∧
    ∃ c, (k, c) ∈ tr ∧
      (∀ ex ∈ c, ex ∈ L) ∧
      (∀ ex ∈ L, inCatalog cat ex = true → ex ∈ acc2.dedup) ∧
      (∀ ex, inCatalog cat ex = false → ex ∉ acc2.dedup) := by
  obtain ⟨cat1, acc1, rs1, c, cat1', rs1', hstep, htr, hcsub, haccsub,
    hlookk, hpres⟩ := runKeys_key_extract hrun hmem hkeys
  rw [keyContribution.eq_def, if_neg hkt] at hstep
  dsimp only at hstep
  simp only [Except.ok.injEq, Prod.mk.injEq] at hstep
  obtain ⟨rfl, rfl, rfl⟩ := hstep
  obtain ⟨-, -, hfromcat, -⟩ := runKeys_spec problems cat [] rs hrun
  refine ⟨by simp only [add_homework_problems, hrun], _, htr, ?_, ?_, ?_⟩
  · intro ex hex
    obtain ⟨a, ha, hex'⟩ := List.mem_flatMap.1 hex
    obtain ⟨p, hp, rfl⟩ := List.mem_map.1 hex'
    exact ha
  · intro ex hexL hexcat
    obtain ⟨p, hp, hexp⟩ := inCatalog_iff.1 hexcat
    have hlookp : catLookup cat p.1 = some p.2 :=
      catLookup_of_mem_nodup hcat hp
    have hex0 : ex ∈ (catLookup cat p.1).getD [] := by
      rw [hlookp]; simpa using hexp
    rcases hpres p.1 ex hex0 with h' | h'
    · rcases hv' : catLookup cat1 p.1 with _ | v'
      · rw [hv'] at h'; cases h'
      · rw [hv'] at h'
        simp only [Option.getD_some] at h'
        have hmem1 : (p.1, v') ∈ cat1 := catLookup_mem hv'
        have hinc : ex ∈ L.flatMap (fun ex =>
            (cat1.filter (fun p => p.2.contains ex)).map (fun _ => ex)) := by
          refine List.mem_flatMap.2 ⟨ex, hexL, ?_⟩
          refine List.mem_map.2 ⟨(p.1, v'), ?_, rfl⟩
          refine List.mem_filter.2 ⟨hmem1, ?_⟩
          simp [List.contains, List.elem_iff, h']
        exact List.mem_dedup.2 (hcsub ex hinc)
    · exact List.mem_dedup.2 (haccsub ex h')
  · intro ex hexcat hexsel
    rcases hfromcat ex (List.mem_dedup.1 hexsel) with h' | h'
    · cases h'
    · rw [hexcat] at h'
      cases h'

/-- Witness for C3: a two-section catalog and `problems = {'ch1': 'all'}`;
every entry of chapter 1 is clicked once. -/
theorem add_homework_problems_all_witness :
    add_homework_problems [("1.1", ["a", "b"]), ("1.2", ["c"])]
        [("ch1", ProblemSpec.all)] []
      = .ok (["a", "b", "c"] : List String).dedup ∧
    (∀ q ∈ targetEntries [("1.1", ["a", "b"]), ("1.2", ["c"])] "ch1",
      q ∈ (["a", "b", "c"] : List String).dedup) ∧
    (["a", "b", "c"] : List String).dedup.Nodup :=
  add_homework_problems_all_selects_every_entry
    (rfl :
      runKeys [("1.1", ["a", "b"]), ("1.2", ["c"])] [] []
          [("ch1", ProblemSpec.all)]
        = .ok ([("1.1", ["a", "b"]), ("1.2", ["c"])], ["a", "b", "c"], [],
            [("ch1", ["a", "b", "c"])]))
    (by decide) (by decide) (by decide) (by decide)

/-- Witness for C4: `problems = {'1.1': (1, 2)}` over a three-exercise
section with the all-zero random stream; one exercise is drawn. -/
theorem add_homework_problems_range_witness :
    add_homework_problems [("1.1", ["a", "b", "c"])]
        [("1.1", ProblemSpec.randRange 1 2)] [0, 0, 0]
      = .ok (["a"] : List String).dedup ∧
    ∃ c, ("1.1", c) ∈ [("1.1", (["a"] : List String))] ∧
      1 ≤ c.length ∧ c.length ≤ 2 ∧ c.Nodup ∧
      (∀ q ∈ c, q ∈ (["a", "b", "c"] : List String)) ∧
      (∀ q ∈ c, q ∈ (["a"] : List String).dedup) ∧
      (["a"] : List String).dedup.Nodup :=
  add_homework_problems_range_spec
    (rfl :
      runKeys [("1.1", ["a", "b", "c"])] [] [0, 0, 0]
          [("1.1", ProblemSpec.randRange 1 2)]
        = .ok ([("1.1", ["b", "c"])], ["a"], [0], [("1.1", ["a"])]))
    (by decide) (by decide) (by decide) (by decide) rfl
    (by decide) (by decide) (by decide)

/-- Witness for C5: `problems = {'1.1': ['b', 'z']}` where only `'b'` exists
in the catalog; exactly `'b'` is clicked and `'z'` is skipped. -/
theorem add_homework_problems_ids_witness :
    add_homework_problems [("1.1", ["a", "b"])]
        [("1.1", ProblemSpec.ids ["b", "z"])] []
      = .ok (["b"] : List String).dedup ∧
    ∃ c, ("1.1", c) ∈ [("1.1", (["b"] : List String))] ∧
      (∀ ex ∈ c, ex ∈ (["b", "z"] : List String)) ∧
      (∀ ex ∈ (["b", "z"] : List String),
        inCatalog [("1.1", ["a", "b"])] ex = true →
        ex ∈ (["b"] : List String).dedup) ∧
      (∀ ex, inCatalog [("1.1", ["a", "b"])] ex = false →
        ex ∉ (["b"] : List String).dedup) :=
  add_homework_problems_ids_spec
    (rfl :
      runKeys [("1.1", ["a", "b"])] [] []
          [("1.1", ProblemSpec.ids ["b", "z"])]
        = .ok ([("1.1", ["a", "b"])], ["b"], [], [("1.1", ["b"])]))
    (by decide) (by decide) (by decide) (by decide)

/-- `splitOnFirst` fails exactly on lists not containing the character. -/
theorem splitOnFirst_eq_none {c : Char} {l : List Char} :
    splitOnFirst c l = none ↔ c ∉ l := by
  induction l with
  | nil => simp [splitOnFirst]
  | cons a rest ih =>
    rw [splitOnFirst]
    by_cases hac : a = c
    · simp [hac]
    · rcases h : splitOnFirst c rest with _ | pr
      · simp only [if_neg hac, h, List.mem_cons, not_or]
        exact ⟨fun _ => ⟨fun e => hac e.symm, ih.1 h⟩, fun _ => trivial⟩
      · obtain ⟨l', r'⟩ := pr
        simp only [if_neg hac, h]
        constructor
        · intro habs; cases habs
        · intro hnot
          exact absurd (ih.2 fun hm => hnot (List.mem_cons_of_mem _ hm))
            (by simp [h])

/-- `splitOnFirst` cuts at the first occurrence. -/
theorem splitOnFirst_of_not_mem {c : Char} {l₁ l₂ : List Char}
    (h : c ∉ l₁) : splitOnFirst c (l₁ ++ c :: l₂) = some (l₁, l₂) := by
  induction l₁ with
  | nil => simp [splitOnFirst]
  | cons a rest ih =>
    have hac : ¬a = c := fun e => h (e ▸ List.mem_cons_self _ _)
    rw [List.cons_append, splitOnFirst, if_neg hac,
      ih fun hm => h (List.mem_cons_of_mem _ hm)]

/-- Reconstruction from a successful `splitOnFirst`. -/
theorem splitOnFirst_eq_some {c : Char} {l a b : List Char}
    (h : splitOnFirst c l = some (a, b)) : l = a ++ c :: b ∧ c ∉ a := by
  induction l generalizing a with
  | nil => cases h
  | cons x rest ih =>
    rw [splitOnFirst] at h
    by_cases hxc : x = c
    · rw [if_pos hxc] at h
      simp only [Option.some.injEq, Prod.mk.injEq] at h
      obtain ⟨rfl, rfl⟩ := h
      simp [hxc]
    · rw [if_neg hxc] at h
      rcases h' : splitOnFirst c rest with _ | pr
      · rw [h'] at h; cases h
      · obtain ⟨l', r'⟩ := pr
        rw [h'] at h
        simp only [Option.some.injEq, Prod.mk.injEq] at h
        obtain ⟨rfl, rfl⟩ := h
        obtain ⟨hrec, hnm⟩ := ih h'
        refine ⟨by rw [List.cons_append, ← hrec], ?_⟩
        simp only [List.mem_cons, not_or]
        exact ⟨fun e => hxc e.symm, hnm⟩

/-- `takeWhile`/`dropWhile` on a clean prefix followed by a stopper. -/
theorem takeWhile_append_all {p : Char → Bool} {n r : List Char}
    (hn : ∀ x ∈ n, p x = true)
    (hr : r = [] ∨ ∃ a t, r = a :: t ∧ p a = false) :
    (n ++ r).takeWhile p = n ∧ (n ++ r).dropWhile p = r := by
  induction n with
  | nil =>
    rcases hr with rfl | ⟨a, t, rfl, ha⟩
    · exact ⟨rfl, rfl⟩
    · simp [List.takeWhile_cons, List.dropWhile_cons, ha]
  | cons x rest ih =>
    have hx : p x = true := hn x (List.mem_cons_self _ _)
    obtain ⟨h1, h2⟩ := ih fun y hy => hn y (List.mem_cons_of_mem _ hy)
    simp [List.takeWhile_cons, List.dropWhile_cons, hx, h1, h2]

/-- `dropWhile` is empty or starts with a stopper. -/
theorem dropWhile_cases (p : Char → Bool) (l : List Char) :
    l.dropWhile p = [] ∨
    ∃ a t, l.dropWhile p = a :: t ∧ p a = false := by
  induction l with
  | nil => exact Or.inl rfl
  | cons x rest ih =>
    by_cases hx : p x = true
    · simpa [List.dropWhile_cons, hx] using ih
    · exact Or.inr ⟨x, rest, by simp [List.dropWhile_cons, hx],
        by simpa using hx⟩

/-- The pre-fragment part contains no `'#'`. -/
theorem fragSplit_no_hash (l : List Char) : '#' ∉ (fragSplit l).1 := by
  rw [fragSplit]
  rcases h : splitOnFirst '#' l with _ | pr
  · exact splitOnFirst_eq_none.1 h
  · obtain ⟨a, b⟩ := pr
    exact (splitOnFirst_eq_some h).2

/-- The pre-query part contains no `'?'`. -/
theorem querySplit_no_q (l : List Char) : '?' ∉ (querySplit l).1 := by
  rw [querySplit]
  rcases h : splitOnFirst '?' l with _ | pr
  · exact splitOnFirst_eq_none.1 h
  · obtain ⟨a, b⟩ := pr
    exact (splitOnFirst_eq_some h).2

/-- Both `querySplit` parts come from the input. -/
theorem querySplit_parts_sub (l : List Char) :
    (∀ x ∈ (querySplit l).1, x ∈ l) ∧ ∀ x ∈ (querySplit l).2, x ∈ l := by
  rw [querySplit]
  rcases h : splitOnFirst '?' l with _ | pr
  · exact ⟨fun x hx => hx, by simp⟩
  · obtain ⟨a, b⟩ := pr
    obtain ⟨rfl, -⟩ := splitOnFirst_eq_some h
    exact ⟨fun x hx => List.mem_append_left _ hx,
      fun x hx => List.mem_append_right _ (List.mem_cons_of_mem _ hx)⟩

/-- `fragSplit` on a non-`'#'` head keeps that head. -/
theorem fragSplit_cons_head {a : Char} (t : List Char) (h : a ≠ '#') :
    (fragSplit (a :: t)).1.head? = some a := by
  rw [fragSplit, splitOnFirst, if_neg h]
  rcases h' : splitOnFirst '#' t with _ | pr
  · rfl
  · obtain ⟨l', r'⟩ := pr
    rfl

/-- `fragSplit` on a `'#'` head has an empty pre-fragment part. -/
theorem fragSplit_hash (t : List Char) : (fragSplit ('#' :: t)).1 = [] := by
  rw [fragSplit, splitOnFirst, if_pos rfl]

/-- `querySplit` on a non-`'?'` head keeps that head. -/
theorem querySplit_cons_head {a : Char} (t : List Char) (h : a ≠ '?') :
    (querySplit (a :: t)).1.head? = some a := by
  rw [querySplit, splitOnFirst, if_neg h]
  rcases h' : splitOnFirst '?' t with _ | pr
  · rfl
  · obtain ⟨l', r'⟩ := pr
    rfl

/-- `querySplit` on a `'?'` head has an empty path part. -/
theorem querySplit_q (t : List Char) : (querySplit ('?' :: t)).1 = [] := by
  rw [querySplit, splitOnFirst, if_pos rfl]

/-- The netloc `urlsplitM` extracts contains no delimiter. -/
theorem urlsplitM_netloc_clean (u : List Char) :
    ∀ x ∈ (urlsplitM u).netloc, notNetlocDelim x = true := by
  rw [urlsplitM]
  rw [netlocSplit.eq_def]
  split
  · intro x hx
    exact List.mem_takeWhile_imp hx
  · intro x hx
    cases hx

/-- The path and query `urlsplitM` extracts are delimiter-clean. -/
theorem urlsplitM_path_query_clean (u : List Char) :
    '?' ∉ (urlsplitM u).path ∧ '#' ∉ (urlsplitM u).path ∧
    '#' ∉ (urlsplitM u).query := by
  rw [urlsplitM]
  refine ⟨querySplit_no_q _, ?_, ?_⟩
  · intro hmem
    exact fragSplit_no_hash _ ((querySplit_parts_sub _).1 '#' hmem)
  · intro hmem
    exact fragSplit_no_hash _ ((querySplit_parts_sub _).2 '#' hmem)

/-- When a netloc was extracted, the path is empty or absolute. -/
theorem urlsplitM_path_head (u : List Char) :
    (urlsplitM u).netloc ≠ [] →
    (urlsplitM u).path = [] ∨ (urlsplitM u).path.head? = some '/' := by
  rw [urlsplitM]
  rw [netlocSplit.eq_def]
  split
  · rename_i r heq
    dsimp only
    intro hne
    rcases dropWhile_cases notNetlocDelim r with hdrop | ⟨a, t, hdrop, ha⟩
    · rw [hdrop]
      left
      rfl
    · rw [hdrop]
      have ha' : a = '/' ∨ a = '?' ∨ a = '#' := by
        by_cases h1 : a = '/'
        · exact Or.inl h1
        by_cases h2 : a = '?'
        · exact Or.inr (Or.inl h2)
        by_cases h3 : a = '#'
        · exact Or.inr (Or.inr h3)
        exfalso
        simp [notNetlocDelim, h1, h2, h3] at ha
      rcases ha' with rfl | rfl | rfl
      · rcases hf : (fragSplit ('/' :: t)).1 with _ | ⟨b, t'⟩
        · left
          rfl
        · have hd := fragSplit_cons_head t (by decide : ('/' : Char) ≠ '#')
          rw [hf] at hd
          simp only [List.head?_cons, Option.some.injEq] at hd
          subst hd
          right
          exact querySplit_cons_head t' (by decide)
      · rcases hf : (fragSplit ('?' :: t)).1 with _ | ⟨b, t'⟩
        · left
          rfl
        · have hd := fragSplit_cons_head t (by decide : ('?' : Char) ≠ '#')
          rw [hf] at hd
          simp only [List.head?_cons, Option.some.injEq] at hd
          subst hd
          left
          exact querySplit_q t'
      · left
        rw [fragSplit_hash]
        rfl
  · intro hne
    exact absurd rfl hne

/-- The string `urlunsplit` builds for an `https`-scheme 5-tuple. -/
theorem urlunsplit_https_shape (n pa q f : List Char) :
    urlunsplitM ⟨"https".data, n, pa, q, f⟩ =
      "https".data ++ ':' ::
        ((if n ≠ [] ∨ pa.take 2 = ['/', '/'] then
            '/' :: '/' :: (n ++ (if pa ≠ [] ∧ pa.head? ≠ some '/'
              then '/' :: pa else pa))
          else pa) ++ optQuery q ++ optFrag f) := by
  by_cases h1 : (n ≠ [] ∨ pa.take 2 = ['/', '/']) <;>
    by_cases hq : q = [] <;> by_cases hf : f = [] <;>
    simp [urlunsplitM, optQuery, optFrag, h1, hq, hf, List.append_assoc,
      show "https".data ≠ [] from by decide]

/-- `urlsplit` recovers the `https` scheme it was given. -/
theorem extractScheme_https (rest : List Char) :
    extractScheme ("https".data ++ ':' :: rest) = ("https".data, rest) := by
  rw [extractScheme, splitOnFirst_of_not_mem (by decide)]
  dsimp only
  rw [if_pos (by decide : schemeOk "https".data = true)]
  simp [show "https".data.map Char.toLower = "https".data from by decide]

/-- A list whose second element cannot be `'/'` is not a netloc marker. -/
theorem netlocSplit_not_marker {l : List Char}
    (h : l.take 2 ≠ ['/', '/']) : netlocSplit l = ([], l) := by
  rw [netlocSplit.eq_def]
  split
  · rename_i r
    exact absurd rfl h
  · rfl

/-- Undoing the fragment tail. -/
theorem fragSplit_opt {l : List Char} (f : List Char) (hl : '#' ∉ l) :
    fragSplit (l ++ optFrag f) = (l, f) := by
  by_cases hf : f = []
  · subst hf
    rw [optFrag, if_pos rfl, List.append_nil, fragSplit,
      splitOnFirst_eq_none.2 hl]
  · rw [optFrag, if_neg hf, fragSplit, splitOnFirst_of_not_mem hl]

/-- Undoing the query tail. -/
theorem querySplit_opt {pa : List Char} (q : List Char) (hpq : '?' ∉ pa) :
    querySplit (pa ++ optQuery q) = (pa, q) := by
  by_cases hq : q = []
  · subst hq
    rw [optQuery, if_pos rfl, List.append_nil, querySplit,
      splitOnFirst_eq_none.2 hpq]
  · rw [optQuery, if_neg hq, querySplit, splitOnFirst_of_not_mem hpq]

/-- Splitting the string `urlunsplit` built for well-formed `https`
components gives the components back. -/
theorem urlsplit_of_urlunsplit_https {n pa q f : List Char}
    (hn : ∀ x ∈ n, notNetlocDelim x = true)
    (hpq : '?' ∉ pa) (hpf : '#' ∉ pa) (hqf : '#' ∉ q)
    (hslash : n ≠ [] → pa = [] ∨ pa.head? = some '/') :
    urlsplitM (urlunsplitM ⟨"https".data, n, pa, q, f⟩)
      = ⟨"https".data, n, pa, q, f⟩ := by
  have hpaq : '#' ∉ pa ++ optQuery q := by
    intro hm
    rcases List.mem_append.1 hm with hm' | hm'
    · exact hpf hm'
    · rw [optQuery] at hm'
      by_cases hq : q = []
      · rw [if_pos hq] at hm'
        cases hm'
      · rw [if_neg hq] at hm'
        rcases List.mem_cons.1 hm' with habs | hm''
        · cases habs
        · exact hqf hm''
  rw [urlunsplit_https_shape, urlsplitM, extractScheme_https]
  dsimp only
  by_cases hcond : (n ≠ [] ∨ pa.take 2 = ['/', '/'])
  · -- the '//' marker is emitted
    rw [if_pos hcond]
    have hpahead : pa = [] ∨ pa.head? = some '/' := by
      rcases hcond with hne | htake
      · exact hslash hne
      · rcases pa with _ | ⟨a, t⟩
        · exact Or.inl rfl
        · rcases t with _ | ⟨b, t'⟩
          · cases htake
          · rw [List.take_succ_cons, List.take_succ_cons] at htake
            injection htake with h1 _
            subst h1
            exact Or.inr rfl
    have hpa2 : (if pa ≠ [] ∧ pa.head? ≠ some '/' then '/' :: pa else pa)
        = pa := by
      rcases hpahead with rfl | hhead
      · simp
      · rw [if_neg]
        rintro ⟨-, habs⟩
        exact habs hhead
    rw [hpa2]
    have hr : (pa ++ optQuery q ++ optFrag f) = [] ∨
        ∃ a t, (pa ++ optQuery q ++ optFrag f) = a :: t ∧
          notNetlocDelim a = false := by
      rcases hpahead with rfl | hhead
      · by_cases hq : q = []
        · subst hq
          by_cases hf : f = []
          · subst hf
            exact Or.inl rfl
          · exact Or.inr ⟨'#', f, by simp [optQuery, optFrag, hf], by decide⟩
        · exact Or.inr ⟨'?', q ++ optFrag f,
            by simp [optQuery, hq, List.append_assoc], by decide⟩
      · rcases pa with _ | ⟨a, t⟩
        · cases hhead
        · simp only [List.head?_cons, Option.some.injEq] at hhead
          subst hhead
          exact Or.inr ⟨'/', t ++ optQuery q ++ optFrag f,
            by simp [List.append_assoc], by decide⟩
    have hsplit := takeWhile_append_all hn hr
    have hshape : '/' :: '/' :: (n ++ pa) ++ optQuery q ++ optFrag f
        = '/' :: '/' :: (n ++ (pa ++ optQuery q ++ optFrag f)) := by
      simp [List.append_assoc]
    rw [hshape, netlocSplit, hsplit.1, hsplit.2]
    have hfinal : pa ++ optQuery q ++ optFrag f
        = (pa ++ optQuery q) ++ optFrag f := by
      rw [List.append_assoc]
    rw [hfinal, fragSplit_opt f hpaq]
    dsimp only
    rw [querySplit_opt q hpq]
  · -- no marker: the path is emitted bare
    rw [if_neg hcond]
    push_neg at hcond
    obtain ⟨hn0, htake⟩ := hcond
    have htwo : ∀ (c : Char) (xs : List Char), c ≠ '/' →
        (c :: xs).take 2 ≠ ['/', '/'] := by
      intro c xs hc habs
      rw [List.take_succ_cons] at habs
      injection habs with h1 _
      exact hc h1
    have hX2 : (pa ++ optQuery q ++ optFrag f).take 2 ≠ ['/', '/'] := by
      rcases pa with _ | ⟨a, t⟩
      · by_cases hq : q = []
        · subst hq
          by_cases hf : f = []
          · subst hf
            simp [optQuery, optFrag]
          · simp only [optQuery, optFrag, if_pos rfl, if_neg hf,
              List.nil_append]
            exact htwo '#' f (by decide)
        · simp only [optQuery, if_neg hq, List.nil_append, List.cons_append,
            List.append_assoc]
          exact htwo '?' (q ++ optFrag f) (by decide)
      · by_cases ha : a = '/'
        · subst ha
          rcases t with _ | ⟨b, t'⟩
          · -- `pa = ['/']`: the second character comes from query/fragment
            intro habs
            simp only [List.cons_append, List.nil_append,
              List.take_succ_cons, List.cons.injEq] at habs
            obtain ⟨-, habs⟩ := habs
            by_cases hq : q = []
            · subst hq
              by_cases hf : f = []
              · subst hf
                simp [optQuery, optFrag] at habs
              · simp [optQuery, optFrag, hf] at habs
            · simp [optQuery, hq] at habs
          · -- `pa` has two characters: its own `take 2` decides
            intro habs
            simp only [List.cons_append, List.take_succ_cons,
              List.cons.injEq] at habs
            exact htake (by simp [List.take_succ_cons, habs.1, habs.2.1])
        · simpa [List.cons_append] using htwo a (t ++ optQuery q ++ optFrag f) ha

    rw [netlocSplit_not_marker hX2]
    dsimp only
    have hfinal : pa ++ optQuery q ++ optFrag f
        = (pa ++ optQuery q) ++ optFrag f := by
      rw [List.append_assoc]
    rw [hfinal, fragSplit_opt f hpaq]
    dsimp only
    rw [querySplit_opt q hpq, hn0]

/-- Round trip for the `https`-forced parse of any string. -/
theorem urlsplit_user_roundtrip (u : List Char) :
    urlsplitM (urlunsplitM { urlsplitM u with scheme := "https".data })
      = { urlsplitM u with scheme := "https".data } :=
  urlsplit_of_urlunsplit_https (urlsplitM_netloc_clean u)
    (urlsplitM_path_query_clean u).1 (urlsplitM_path_query_clean u).2.1
    (urlsplitM_path_query_clean u).2.2 (urlsplitM_path_head u)

/-- **C9.** The URL `User.__init__` stores always carries the `https`
scheme, and its host (netloc) and path are those of the given site: for a
site with an explicit `http` or `https` scheme they equal the parsed site's
host and path, and for a site `urlparse` finds no scheme in they equal the
host and path of the site read as `'//' + site`, i.e. the site's own
host/path.  No `User` instance ever holds a non-`https` url. -/
theorem user_url_spec (site : List Char) :
    (urlsplitM (user_url site)).scheme = "https".data ∧
    ((urlsplitM site).scheme = "http".data ∨
        (urlsplitM site).scheme = "https".data →
      (urlsplitM (user_url site)).netloc = (urlsplitM site).netloc ∧
      (urlsplitM (user_url site)).path = (urlsplitM site).path) ∧
    ((urlsplitM site).scheme = [] →
      (urlsplitM (user_url site)).netloc
        = (urlsplitM ('/' :: '/' :: site)).netloc ∧
      (urlsplitM (user_url site)).path
        = (urlsplitM ('/' :: '/' :: site)).path) := by
  by_cases hs : (urlsplitM site).scheme = []
  · have hurl : user_url site
        = urlunsplitM
            { urlsplitM ('/' :: '/' :: site) with scheme := "https".data } := by
      rw [user_url, if_neg (not_not_intro hs)]
    refine ⟨?_, ?_, ?_⟩
    · rw [hurl, urlsplit_user_roundtrip]
    · intro hcase
      exfalso
      rcases hcase with h | h <;> rw [hs] at h <;> cases h
    · intro _
      rw [hurl, urlsplit_user_roundtrip]
      exact ⟨rfl, rfl⟩
  · have hurl : user_url site
        = urlunsplitM { urlsplitM site with scheme := "https".data } := by
      rw [user_url, if_pos hs]
    refine ⟨?_, ?_, ?_⟩
    · rw [hurl, urlsplit_user_roundtrip]
    · intro _
      rw [hurl, urlsplit_user_roundtrip]
      exact ⟨rfl, rfl⟩
    · intro hcase
      exact absurd hcase hs

/-- Witness for C9 at `site = 'http://tutor-qa.openstax.org/dashboard'`:
the stored URL has scheme `https` with host and path preserved. -/
theorem user_url_spec_witness :
    (urlsplitM (user_url "http://tutor-qa.openstax.org/dashboard".data)).scheme
      = "https".data ∧
    (urlsplitM (user_url "http://tutor-qa.openstax.org/dashboard".data)).netloc
      = "tutor-qa.openstax.org".data ∧
    (urlsplitM (user_url "http://tutor-qa.openstax.org/dashboard".data)).path
      = "/dashboard".data := by
  have h := user_url_spec "http://tutor-qa.openstax.org/dashboard".data
  obtain ⟨hnetloc, hpath⟩ := h.2.1 (Or.inl (by decide))
  refine ⟨h.1, ?_, ?_⟩
  · rw [hnetloc]
    decide
  · rw [hpath]
    decide

/-- **C6.** For each of the four assignment-creation workflows and each
breakpoint tag it supports, running the workflow with that `break_point`
performs exactly the steps up to the corresponding checkpoint of the full
run and none of the later steps: title entry, description entry, period
assignment, section/exercise/url entry and status selection that follow the
checkpoint are all untouched. -/
theorem breakpoints_truncate_workflows :
    breakpointExact add_new_reading_steps readingBreakpoints ∧
    breakpointExact add_new_homework_steps homeworkBreakpoints ∧
    breakpointExact add_new_external_steps externalBreakpoints ∧
    breakpointExact add_new_event_steps eventBreakpoints := by
  refine ⟨?_, ?_, ?_, ?_⟩ <;> decide

/-- Witness for C6: `add_new_reading` halted at the `period` breakpoint has
entered only the title and the description, and its remaining steps (period
assignment, section selection, adding readings, status selection) do not
occur. -/
theorem breakpoints_truncate_workflows_witness :
    add_new_reading_steps (some "period")
      = (add_new_reading_steps none).take 4 ∧
    ∀ a ∈ (add_new_reading_steps none).drop 4,
      a ∉ add_new_reading_steps (some "period") :=
  breakpoints_truncate_workflows.1 ("period", 4) (by decide)

end Staxing
